import Mathlib

/-!
A shallow embedding in Lean 4 of the receipt-parsing pipeline and the
catalog-enrichment subsystem of the basket-cost repository, together with
proofs about the embedded code.

Embedded components (each definition is a direct transcription of the Go
source function of the same name):

* `internal/ticket/parser.go` — `splitLines`, the header scan of `Parse`,
  `parseMultiLineBody` (state machine) and `parseSingleLineBody`, with the
  anchored regular expressions realised as deterministic character-list
  matchers (the two lazy-group expressions keep the Perl-style
  leftmost-first backtracking order of Go's regexp engine).
* `internal/ticket/importer.go` — `Import`, with the extractor and the
  persistence contract passed in as oracles and the persistence calls
  recorded in a trace.
* `internal/enricher` — `normalise`, `deaccent`, `keywords`,
  `translateCatalan` with the full Catalan→Spanish dictionary, `bestMatch`
  (Dice scoring), the product-matching loop of `Run`, and the capacity-1
  coalescing signal channel behind `Schedule`/`Start` modelled as a pending
  counter.

Modelling conventions:

* Go `float64` money values only ever come from `\d+,\d{2}` literals, so
  they are represented exactly as integer euro-cents (`Nat`).  Dice scores
  are exact rationals (`ℚ`); at realistic keyword-set sizes the float64
  arithmetic of the source is exact enough that every comparison it makes
  agrees with the rational one.
* Go `time.Time` values produced by `time.Parse("02/01/2006", ·)` are
  modelled by their calendar day/month/year; the zero `time.Time` is
  January 1 of year 1, which is what `IsZero` tests.
* `unicode.IsSpace` is modelled on the whitespace characters that can occur
  in receipt text (ASCII whitespace, NEL, NBSP); `unicode.IsLetter/IsDigit`
  on the ASCII range reached after `deaccent`.
* Fallible Go operations that cannot fail on the values reachable here
  (`strconv.Atoi` / `ParseFloat` overflow on hundreds-of-digits literals)
  are modelled as total.
-/

namespace BasketCost

/-- Model of `unicode.IsSpace` (used by `strings.Fields` and
`strings.TrimSpace`) on the whitespace characters occurring in receipts:
space, tab, LF, VT, FF, CR, NEL, NBSP. -/
def goIsSpace (c : Char) : Bool :=
  c == ' ' || c == '\t' || c == '\n' || c == '\x0b' || c == '\x0c' ||
  c == '\r' || c == '\x85' || c == '\xa0'

/-- The character class `\s` of Go's regexp package: `[\t\n\f\r ]`. -/
def reSpace (c : Char) : Bool :=
  c == ' ' || c == '\t' || c == '\n' || c == '\x0c' || c == '\r'

/-- The character class `\d` of Go's regexp package. -/
def isDigitChar (c : Char) : Bool := c.isDigit

/-- Numeric value of a decimal digit character. -/
def digitVal (c : Char) : Nat := c.toNat - '0'.toNat

/-- Decimal reading of a digit string, as `strconv.Atoi` does on `\d+`. -/
def digitsToNat (cs : List Char) : Nat := cs.foldl (fun n c => n * 10 + digitVal c) 0

/-- Worker for `splitWords`: accumulates the current word (reversed) while
scanning. -/
def wordsAux : List Char → List Char → List (List Char)
  | [], acc => if acc = [] then [] else [acc.reverse]
  | c :: cs, acc =>
    if goIsSpace c then
      if acc = [] then wordsAux cs [] else acc.reverse :: wordsAux cs []
    else wordsAux cs (c :: acc)

/-- Character-level model of `strings.Fields`: maximal runs of
non-whitespace characters. -/
def splitWords (cs : List Char) : List (List Char) := wordsAux cs []

/-- `strings.Fields`. -/
def fields (s : String) : List String := (splitWords s.data).map String.mk

/-- Character-level model of `strings.Join · " "`. -/
def joinChars : List (List Char) → List Char
  | [] => []
  | [w] => w
  | w :: w' :: ws => w ++ ' ' :: joinChars (w' :: ws)

/-- `strings.Join · " "`. -/
def joinWords (l : List String) : String := ⟨joinChars (l.map String.data)⟩

/-- `strings.TrimSpace`, working on character lists. -/
def trimSpaceL (cs : List Char) : List Char :=
  ((cs.dropWhile goIsSpace).reverse.dropWhile goIsSpace).reverse

/-- `strings.TrimSpace`. -/
def trimSpace (s : String) : String := ⟨trimSpaceL s.data⟩

/-- Strip a literal from the front of a character list, returning the
remainder on success (the building block for the literal parts of the
anchored regexes). -/
def stripLit : List Char → List Char → Option (List Char)
  | [], cs => some cs
  | _ :: _, [] => none
  | l :: ls, c :: cs => if c = l then stripLit ls cs else none

/-- The static Catalan→Spanish token dictionary `catalanToSpanish` of
`internal/enricher/catalan_dict.go`, in source order.  An empty value marks
a token that is to be dropped entirely. -/
def catalanToSpanish : List (String × String) := [
  ("llet", "leche"),
  ("semi", "semidesnatada"),
  ("llact", ""),
  ("lact", ""),
  ("ous", "huevos"),
  ("clara", "clara"),
  ("pasteu", ""),
  ("iogurt", "yogur"),
  ("grec", "griego"),
  ("lleuger", "ligero"),
  ("lleugera", "ligera"),
  ("nata", "nata"),
  ("batre", ""),
  ("mantega", "mantequilla"),
  ("manteg", "mantequilla"),
  ("llevat", "levadura"),
  ("fresc", "fresco"),
  ("crema", "crema"),
  ("pollastre", "pollo"),
  ("pollastr", "pollo"),
  ("pollatre", "pollo"),
  ("pit", "pechuga"),
  ("llom", "lomo"),
  ("pernil", "jamon"),
  ("burger", "hamburguesa"),
  ("bovi", "vacuno"),
  ("gruixuda", "gruesa"),
  ("cuixa", "muslo"),
  ("cuixetes", "muslitos"),
  ("croquetes", "croquetas"),
  ("mandonguilles", "albondigas"),
  ("mig", ""),
  ("rostit", "asado"),
  ("gall", ""),
  ("dindi", "pavo"),
  ("secret", "secreto"),
  ("engreix", ""),
  ("cert", ""),
  ("bur", "hamburguesa"),
  ("burg", "hamburguesa"),
  ("espatlla", "paleta"),
  ("garró", "jarrete"),
  ("garro", "jarrete"),
  ("fetge", "higado"),
  ("vacum", "vacuno"),
  ("porc", "cerdo"),
  ("anec", "pato"),
  ("confita", "confitado"),
  ("cansalada", "bacon"),
  ("viada", "ahumado"),
  ("embotit", "embutido"),
  ("minidauets", "taquitos"),
  ("daus", "tacos"),
  ("tall", "loncha"),
  ("talls", ""),
  ("tallat", "lonchas"),
  ("tallada", "cortada"),
  ("tallades", "cortadas"),
  ("rodanxes", "rodajas"),
  ("laminat", "laminado"),
  ("tonyina", "atun"),
  ("salmo", "salmon"),
  ("fumat", "ahumado"),
  ("verat", "caballa"),
  ("filet", "filetes"),
  ("musclo", "mejillon"),
  ("musclos", "mejillones"),
  ("escabetx", "escabeche"),
  ("paqu", ""),
  ("gamba", "gamba"),
  ("pelada", "pelada"),
  ("crua", "cruda"),
  ("escopinyes", "berberechos"),
  ("sard", "sardina"),
  ("sardinetes", "sardinillas"),
  ("sardinilla", "sardinilla"),
  ("seito", "anchoa"),
  ("noruec", "noruego"),
  ("pota", "pota"),
  ("migas", "migas"),
  ("carbasso", "calabacin"),
  ("pebrot", "pimiento"),
  ("ceba", "cebolla"),
  ("espinaca", "espinaca"),
  ("espinac", "espinaca"),
  ("esparrec", "esparrago"),
  ("esparrecs", "esparragos"),
  ("xampinyo", "champinon"),
  ("brots", "brotes"),
  ("tendres", "tiernos"),
  ("llima", "lima"),
  ("verd", "verde"),
  ("mitja", "mediano"),
  ("mitjana", "mediana"),
  ("patata", "patata"),
  ("patates", "patatas"),
  ("tub", ""),
  ("cogombre", "pepino"),
  ("cogombres", "pepinos"),
  ("cogombrets", "pepinillos"),
  ("alberginia", "berenjena"),
  ("alvocat", "aguacate"),
  ("carxofa", "alcachofa"),
  ("broquil", "brocoli"),
  ("pastanaga", "zanahoria"),
  ("tomaquet", "tomate"),
  ("tomàquet", "tomate"),
  ("pebr", "pimiento"),
  ("pebre", "pimienta"),
  ("vermell", "rojo"),
  ("vermella", "roja"),
  ("dolc", "dulce"),
  ("dolca", "dulce"),
  ("pinyol", ""),
  ("pinyols", ""),
  ("sense", ""),
  ("cong", "congelado"),
  ("col", "col"),
  ("arrissada", "rizada"),
  ("llisa", "lisa"),
  ("canonges", "canonigos"),
  ("amanida", "ensalada"),
  ("nova", ""),
  ("tendra", "tierna"),
  ("saltat", "salteado"),
  ("graellada", "a la plancha"),
  ("verdura", "verdura"),
  ("verdures", "verduras"),
  ("bolet", "seta"),
  ("bolets", "setas"),
  ("shiitake", "shiitake"),
  ("taronja", "naranja"),
  ("cirera", "cereza"),
  ("platan", "platano"),
  ("maduixa", "fresa"),
  ("maduixot", "fresa"),
  ("nabiu", "arandano"),
  ("castana", "castana"),
  ("castanyes", "castanas"),
  ("melo", "melon"),
  ("gripau", ""),
  ("llimona", "limon"),
  ("espremuda", "exprimida"),
  ("poma", "manzana"),
  ("manz", "manzana"),
  ("cibulet", "cebollino"),
  ("coriandre", "cilantro"),
  ("all", "ajo"),
  ("alls", "ajos"),
  ("adobat", "aliñado"),
  ("granulat", "granulado"),
  ("sec", "seco"),
  ("trossos", "trozos"),
  ("tros", "trozo"),
  ("plana", "plana"),
  ("mongeta", "judias"),
  ("pesols", "guisantes"),
  ("nyora", "nora"),
  ("piquillo", "piquillo"),
  ("brandi", "brandy"),
  ("cigro", "garbanzo"),
  ("cuit", "cocido"),
  ("cuita", "cocida"),
  ("nyoquis", "gnocchi"),
  ("arros", "arroz"),
  ("arrós", "arroz"),
  ("llentia", "lenteja"),
  ("mongetes", "judias"),
  ("farina", "harina"),
  ("blat", "trigo"),
  ("segol", "centeno"),
  ("civada", "avena"),
  ("flocs", "copos"),
  ("moro", "maiz"),
  ("crispet", "palomitas"),
  ("fideu", "fideo"),
  ("corallini", "corallini"),
  ("pasta", "pasta"),
  ("full", ""),
  ("fullada", "hojaldre"),
  ("integrals", "integrales"),
  ("snacks", "snacks"),
  ("snack", "snack"),
  ("formatge", "queso"),
  ("formatges", "queso"),
  ("provolone", "provolone"),
  ("mescla", "mezcla"),
  ("ratllat", "rallado"),
  ("anyenc", "añejo"),
  ("vell", "viejo"),
  ("fort", "curado"),
  ("blanc", "blanco"),
  ("blanca", "blanca"),
  ("manchego", "manchego"),
  ("gouda", "gouda"),
  ("mozzarella", "mozzarella"),
  ("perles", "perlas"),
  ("rotlle", "rulo"),
  ("cabra", "cabra"),
  ("curat", "curado"),
  ("xapata", "chapata"),
  ("torrat", "tostado"),
  ("torrada", "tostada"),
  ("panses", "pasas"),
  ("vidre", ""),
  ("pages", "campo"),
  ("pags", "campo"),
  ("galeta", "galleta"),
  ("maria", "maria"),
  ("panet", "panecillo"),
  ("llavors", "semillas"),
  ("entrepa", "bocadillo"),
  ("unitats", ""),
  ("hamb", "hamburguesa"),
  ("rustic", "rustico"),
  ("rustica", "rustica"),
  ("pitas", "pitas"),
  ("polvoro", "polvoron"),
  ("mini", "mini"),
  ("pastissets", "pastelitos"),
  ("barreta", "barrita"),
  ("barr", "barrita"),
  ("farcida", "rellena"),
  ("farcits", "rellenos"),
  ("torró", "turron"),
  ("torro", "turron"),
  ("bombo", "bombon"),
  ("ametllat", "almendrado"),
  ("xoco", "chocolate"),
  ("xocolata", "chocolate"),
  ("napo", "napolitana"),
  ("fondre", "fundir"),
  ("banoffee", "banoffee"),
  ("cheesecake", "cheesecake"),
  ("festuc", "pistacho"),
  ("avellana", "avellana"),
  ("cacauet", "cacahuete"),
  ("cacahuete", "cacahuete"),
  ("desgreixat", "desgrasado"),
  ("caramel", "caramel"),
  ("salat", "salado"),
  ("cornet", "cucurucho"),
  ("gelat", "helado"),
  ("orxata", "horchata"),
  ("mousse", "mousse"),
  ("postre", "postre"),
  ("pastis", "pastel"),
  ("llaminadures", "chuches"),
  ("tramussos", "chochos"),
  ("popitos", "palomitas"),
  ("oliva", "aceituna"),
  ("olives", "aceitunas"),
  ("oli", "aceite"),
  ("verge", "virgen"),
  ("extra", "extra"),
  ("arbequina", "arbequina"),
  ("negra", "negra"),
  ("negre", "negro"),
  ("estil", "estilo"),
  ("casola", "casero"),
  ("orenga", "oregano"),
  ("comi", "comino"),
  ("safra", "azafran"),
  ("bitxo", "guindilla"),
  ("molt", "molido"),
  ("molta", "molida"),
  ("anitines", "anchoas"),
  ("maionesa", "mayonesa"),
  ("hummus", "hummus"),
  ("truita", "tortilla"),
  ("curri", "curry"),
  ("enceball", "cebolleta"),
  ("sal", "sal"),
  ("sucre", "azucar"),
  ("llustre", "glas"),
  ("vinagre", "vinagre"),
  ("amaniment", "aliño"),
  ("bicarbonat", "bicarbonato"),
  ("alcohol", "alcohol"),
  ("cervesa", "cerveza"),
  ("cerv", "cerveza"),
  ("cerves", "cerveza"),
  ("radler", "radler"),
  ("llauna", "lata"),
  ("ampolla", "botella"),
  ("ampolleta", "botella"),
  ("agua", "agua"),
  ("aigua", "agua"),
  ("gas", "gas"),
  ("fred", "frio"),
  ("micelar", "micelar"),
  ("destil", "destilada"),
  ("agudes", "con gas"),
  ("font", "fuente"),
  ("isotonic", "isotonica"),
  ("isotonica", "isotonica"),
  ("isotònic", "isotonica"),
  ("energ", "energetica"),
  ("sprite", "sprite"),
  ("brou", "caldo"),
  ("cafe", "cafe"),
  ("descafeinat", "descafeinado"),
  ("gra", "grano"),
  ("nescafe", "nescafe"),
  ("cacau", "cacao"),
  ("muesli", "muesli"),
  ("fruites", "frutas"),
  ("crunchy", "crunchy"),
  ("lleixiu", "lejia"),
  ("netejador", "limpiador"),
  ("neteja", "limpia"),
  ("netej", "limpiador"),
  ("netejamaquines", "limpiahogar"),
  ("netejaulleres", "quitagrasas"),
  ("detergent", "detergente"),
  ("det", "detergente"),
  ("rentaplats", "lavavajillas"),
  ("rentavaixelles", "lavavajillas"),
  ("suavitzant", "suavizante"),
  ("desgreixador", "desengrasante"),
  ("desgreix", "desengrasante"),
  ("marxe", ""),
  ("fregasols", "friegasuelos"),
  ("impulsor", "quitamanchas"),
  ("floral", "floral"),
  ("marsella", "marsella"),
  ("amoniac", "amoniaco"),
  ("citric", "citrico"),
  ("desinfectant", "desinfectante"),
  ("teixits", "tejidos"),
  ("vidres", "cristales"),
  ("multiusos", "multiusos"),
  ("vitroceram", "vitroceramica"),
  ("anticalc", "antical"),
  ("forn", "horno"),
  ("wc", "wc"),
  ("banys", "banos"),
  ("pistola", "pistola"),
  ("espra", "spray"),
  ("gel", "gel"),
  ("escumós", "espumoso"),
  ("escumos", "espumoso"),
  ("xampu", "champu"),
  ("champu", "champu"),
  ("conditioner", "acondicionador"),
  ("rep", ""),
  ("nutr", ""),
  ("color", "color"),
  ("intense", "intenso"),
  ("argan", "argan"),
  ("deo", "desodorante"),
  ("body", "body"),
  ("aqua", "aqua"),
  ("limit", "limit"),
  ("limite", "limite"),
  ("power", "power"),
  ("rexona", "rexona"),
  ("antitaques", "antimanchas"),
  ("vaselina", "vaselina"),
  ("hidratant", "hidratante"),
  ("labial", "labial"),
  ("protect", "protector"),
  ("fps15", "fps15"),
  ("serum", "serum"),
  ("hialuronic", "hialuronico"),
  ("vitamina", "vitamina"),
  ("tonic", "tonico"),
  ("depil", "depilatorio"),
  ("fulles", "hojas"),
  ("ulls", "ojos"),
  ("perf", "perfilador"),
  ("water", "waterproof"),
  ("aut", ""),
  ("discs", "discos"),
  ("desmaquill", "desmaquillante"),
  ("rod", ""),
  ("raspall", "cepillo"),
  ("electric", "electrico"),
  ("rec", "recambio"),
  ("tampo", "tampon"),
  ("tamp", "tampon"),
  ("compact", "compacto"),
  ("regular", "regular"),
  ("salva", "salvaslip"),
  ("salvaungles", "quitaesmalte"),
  ("ungles", "unas"),
  ("delicat", "delicado"),
  ("pinca", "pinza"),
  ("obliqua", "oblicua"),
  ("agulles", "agujas"),
  ("plast", "plastico"),
  ("punta", "punta"),
  ("tovall", "toallita"),
  ("tovallons", "servilletas"),
  ("mocador", "panuelo"),
  ("mocadors", "panuelos"),
  ("capsa", "caja"),
  ("capes", "capas"),
  ("bebe", "bebe"),
  ("fres", "frescos"),
  ("film", "film"),
  ("transparent", "transparente"),
  ("alumini", "aluminio"),
  ("paper", "papel"),
  ("higienic", "higienico"),
  ("vegetal", "vegetal"),
  ("motlle", "molde"),
  ("rodo", "redondo"),
  ("bossa", "bolsa"),
  ("bosses", "bolsas"),
  ("zip", "zip"),
  ("basura", "basura"),
  ("compost", "compostable"),
  ("facil", "facil"),
  ("tanca", "cierre"),
  ("paperera", "papelera"),
  ("palla", "paja"),
  ("reutilitzable", "reutilizable"),
  ("encenedor", "encendedor"),
  ("fusta", "madera"),
  ("grans", "grandes"),
  ("llumins", "cerillas"),
  ("espelma", "vela"),
  ("num", "numero"),
  ("carbó", "carbon"),
  ("carbo", "carbon"),
  ("pal", "palo"),
  ("antilliscant", "antideslizante"),
  ("sorra", "arena"),
  ("aglomerant", "aglomerante"),
  ("escombra", "escoba"),
  ("interiors", "interiores"),
  ("recollidor", "recogedor"),
  ("manec", "mango"),
  ("rodet", "rodillo"),
  ("polsim", "quitapolvos"),
  ("adhe", "adhesivo"),
  ("tiràs", "tiras"),
  ("tiras", "tiras"),
  ("atrapapols", "atrapa polvo"),
  ("camussa", "gamuza"),
  ("baieta", "bayeta"),
  ("baietes", "bayetas"),
  ("microf", "microfibra"),
  ("micro", "microfibra"),
  ("fregall", "estropajo"),
  ("lot", "pack"),
  ("llar", ""),
  ("doble", "doble"),
  ("maquines", "maquinas"),
  ("liquid", "liquido"),
  ("liquida", "liquida"),
  ("recanvi", "recambio"),
  ("love", ""),
  ("insecticida", "insecticida"),
  ("insec", "insecticida"),
  ("espirals", "espirales"),
  ("mosquits", "mosquitos"),
  ("repellent", "repelente"),
  ("antihumitat", "antihumedad"),
  ("joc", "pack"),
  ("gat", "gato"),
  ("silice", "silice"),
  ("mixtura", "mezcla"),
  ("can", "perro"),
  ("caderner", "canario"),
  ("amb", ""),
  ("nat", ""),
  ("granel", ""),
  ("fam", ""),
  ("trev", ""),
  ("white", "white"),
  ("ultra", "ultra"),
  ("light", "light"),
  ("classic", "clasico"),
  ("trico", "tricolor"),
  ("baby", "baby"),
  ("extrafinatr", "extrafino"),
  ("net", "")]

/-- Tokenwise rewrite step of `translateCatalan`: a token found in the
dictionary is replaced by its value (dropped when the value is empty); an
unknown token passes through unchanged. -/
def translateTok (t : String) : List String :=
  match catalanToSpanish.lookup t with
  | some v => if v = "" then [] else [v]
  | none => [t]

/-- `translateCatalan` of `internal/enricher/catalan_dict.go`: split the
normalised name into tokens, rewrite each token through the dictionary, and
join the surviving tokens with single spaces. -/
def translateCatalan (s : String) : String :=
  joinWords ((fields s).flatMap translateTok)


/-! ## Enricher: `normalise`, `keywords` (internal/enricher/mercadona.go) -/

/-- `deaccent`: map the accented characters of the two receipt languages to
their base ASCII letters. -/
def deaccent : Char → Char
  | 'à' | 'á' | 'â' | 'ã' | 'ä' | 'å' | 'À' | 'Á' | 'Â' | 'Ã' | 'Ä' | 'Å' => 'a'
  | 'è' | 'é' | 'ê' | 'ë' | 'È' | 'É' | 'Ê' | 'Ë' => 'e'
  | 'ì' | 'í' | 'î' | 'ï' | 'Ì' | 'Í' | 'Î' | 'Ï' => 'i'
  | 'ò' | 'ó' | 'ô' | 'õ' | 'ö' | 'Ò' | 'Ó' | 'Ô' | 'Õ' | 'Ö' => 'o'
  | 'ù' | 'ú' | 'û' | 'ü' | 'Ù' | 'Ú' | 'Û' | 'Ü' => 'u'
  | 'ñ' | 'Ñ' => 'n'
  | 'ç' | 'Ç' => 'c'
  | 'ł' | 'Ł' => 'l'
  | c => c

/-- `unicode.IsLetter || unicode.IsDigit`, modelled on the ASCII range that
remains after `deaccent`. -/
def unicodeLetterOrDigit (c : Char) : Bool :=
  ('a' ≤ c && c ≤ 'z') || ('A' ≤ c && c ≤ 'Z') || c.isDigit

/-- The scanning loop of `normalise`: letters and digits are lowercased,
every run of other characters becomes a single space. -/
def normaliseAux : List Char → Bool → List Char
  | [], _ => []
  | c :: cs, prevSpace =>
    let r := deaccent c
    if unicodeLetterOrDigit r then r.toLower :: normaliseAux cs false
    else if prevSpace then normaliseAux cs true
    else ' ' :: normaliseAux cs true

/-- `normalise` of `internal/enricher/mercadona.go`. -/
def normalise (s : String) : String :=
  ⟨((normaliseAux s.data true).reverse.dropWhile (· == ' ')).reverse⟩

/-- The `stopWords` set of `internal/enricher/mercadona.go`. -/
def stopWords : List String :=
  ["de", "del", "la", "el", "los", "las", "un", "una", "en", "con", "sin", "y",
   "a", "al", "o", "para", "por", "e",
   "kg", "g", "ml", "l", "cl", "ud", "uds", "u", "pack", "bot", "lata",
   "dels", "les", "uns", "unes", "amb", "per", "i", "d", "s"]

/-- `keywords`: keep tokens of length ≥ 3 that are not stop words. -/
def keywords (normalised : String) : List String :=
  (fields normalised).filter (fun p => decide (3 ≤ p.length) && !stopWords.contains p)

/-! ## Enricher: `bestMatch` and the `Run` loop (internal/enricher/enricher.go) -/

/-- One Mercadona catalogue item: thumbnail URL plus keyword set. -/
structure ProductEntry where
  Thumbnail : String
  Keywords : List String
deriving DecidableEq

/-- The Mercadona product index searched linearly by `bestMatch`. -/
abbrev ProductIndex := List ProductEntry

/-- The count `matched` computed inside `bestMatch`'s entry loop: how many of
the entry's keywords are in the local keyword set. -/
def matchedCount (localKW entryKW : List String) : Nat :=
  (entryKW.filter (fun k => localKW.contains k)).length

/-- The entry loop of `bestMatch`: skip entries with no keywords or no
keyword in common, score the rest with the Dice coefficient and keep the
strictly best score together with its thumbnail. -/
def bmFold (localKW : List String) : ProductIndex → ℚ → String → ℚ × String
  | [], bestScore, bestURL => (bestScore, bestURL)
  | e :: rest, bestScore, bestURL =>
    if e.Keywords = [] then bmFold localKW rest bestScore bestURL
    else if matchedCount localKW e.Keywords = 0 then bmFold localKW rest bestScore bestURL
    else if bestScore <
        2 * (matchedCount localKW e.Keywords : ℚ) / (localKW.length + e.Keywords.length) then
      bmFold localKW rest
        (2 * (matchedCount localKW e.Keywords : ℚ) / (localKW.length + e.Keywords.length))
        e.Thumbnail
    else bmFold localKW rest bestScore bestURL

/-- `minMatchScore`: the minimum Dice coefficient required to accept a
match. -/
def minMatchScore : ℚ := 1 / 2

/-- `bestMatch` of `internal/enricher/enricher.go` (Dice-coefficient
version): guard against an empty local keyword set, fold over the index,
and accept the best score only when it reaches `minMatchScore`. -/
def bestMatch (localKW : List String) (index : ProductIndex) : String × Bool :=
  if localKW = [] then ("", false)
  else if minMatchScore ≤ (bmFold localKW index 0 "").1 then
    ((bmFold localKW index 0 "").2, true)
  else ("", false)

/-- The Dice coefficient exactly as the specification words it:
`2·|intersection(local, entry)| / (|local| + |entry|)`. -/
def dice (localKW entryKW : List String) : ℚ :=
  2 * (matchedCount localKW entryKW : ℚ) / (localKW.length + entryKW.length)

/-- The best Dice score over all index entries with a non-empty keyword
set (the reference value for the threshold behaviour of `bestMatch`). -/
def bestDice (localKW : List String) (index : ProductIndex) : ℚ :=
  (index.filter (fun e => !e.Keywords.isEmpty)).foldr
    (fun e m => max (dice localKW e.Keywords) m) 0

/-- The index of the specification's sample scenario: two entries with
keyword sets `["yogur","natural"]` and `["yogur","coco"]`. -/
def sampleIndex : ProductIndex :=
  [⟨"T1", ["yogur", "natural"]⟩, ⟨"T2", ["yogur", "coco"]⟩]

/-- Per-run counters of the enricher (`EnrichResult`). -/
structure EnrichResult where
  Total : Nat
  Updated : Nat
  Skipped : Nat
deriving DecidableEq

/-- A local product row as seen by the `Run` loop. -/
structure LocalProduct where
  ID : String
  Name : String
deriving DecidableEq

/-- The product loop of `Enricher.Run`: for each product without an image,
normalise → translate → filter → match; persist on a match via the `upd`
oracle (`UpdateProductImageURL`), whose error aborts the loop immediately.
Returns the counters, the error (if any), and the trace of performed
image updates. -/
def runLoop (index : ProductIndex) (upd : String → Option String) :
    List LocalProduct → EnrichResult → EnrichResult × Option String × List (String × String)
  | [], res => (res, none, [])
  | p :: rest, res =>
    if keywords (translateCatalan (normalise p.Name)) = [] then
      runLoop index upd rest { res with Skipped := res.Skipped + 1 }
    else if (bestMatch (keywords (translateCatalan (normalise p.Name))) index).2 then
      match upd p.ID with
      | some e =>
        (res, some ("update image for " ++ p.ID ++ ": " ++ e),
          [(p.ID, (bestMatch (keywords (translateCatalan (normalise p.Name))) index).1)])
      | none =>
        ((runLoop index upd rest { res with Updated := res.Updated + 1 }).1,
         (runLoop index upd rest { res with Updated := res.Updated + 1 }).2.1,
         (p.ID, (bestMatch (keywords (translateCatalan (normalise p.Name))) index).1) ::
           (runLoop index upd rest { res with Updated := res.Updated + 1 }).2.2)
    else
      runLoop index upd rest { res with Skipped := res.Skipped + 1 }

/-- `Enricher.Run` after the index and product list have been obtained:
`res.Total` is the number of inspected products, then the loop runs. -/
def RunModel (index : ProductIndex) (products : List LocalProduct)
    (upd : String → Option String) :
    EnrichResult × Option String × List (String × String) :=
  runLoop index upd products ⟨products.length, 0, 0⟩

/-! ## Enrichment scheduler: `Schedule` / worker loop (coalescing channel) -/

/-- Capacity of the `pending` signal channel. -/
def chanCapacity : Nat := 1

/-- Scheduler state: the number of queued signals in the capacity-1
channel, plus how many runs the worker has started. -/
structure EnricherState where
  pending : Nat
  runsStarted : Nat
deriving DecidableEq

/-- `Schedule`: a non-blocking send on the capacity-1 channel — enqueue if
there is room, otherwise drop the signal. -/
def schedule (s : EnricherState) : EnricherState :=
  if s.pending < chanCapacity then { s with pending := s.pending + 1 } else s

/-- One reception by the worker loop of `Start`: consume a queued signal
and start an enrichment run (blocks, i.e. does nothing, when none is
queued). -/
def workerReceive (s : EnricherState) : EnricherState :=
  if 0 < s.pending then ⟨s.pending - 1, s.runsStarted + 1⟩ else s

/-- Events of the scheduler model. -/
inductive EnrEvent
  | schedule
  | receive
deriving DecidableEq

/-- Interleaved execution step. -/
def enrStep (s : EnricherState) : EnrEvent → EnricherState
  | .schedule => schedule s
  | .receive => workerReceive s

/-- Run a sequence of scheduler events. -/
def enrRun (s : EnricherState) (evs : List EnrEvent) : EnricherState :=
  evs.foldl enrStep s


/-! ## Ticket data model (internal/ticket/ticket.go) -/

/-- Calendar value of a Go `time.Time` produced by
`time.Parse("02/01/2006", ·)`.  The zero `time.Time` — what `IsZero`
tests — is day 1, month 1, year 1. -/
structure GoDate where
  day : Nat
  month : Nat
  year : Nat
deriving DecidableEq

/-- The zero `time.Time` as a calendar date. -/
def zeroDate : GoDate := ⟨1, 1, 1⟩

/-- One product line of a parsed receipt.  `UnitPrice` is in euro cents
(the Go `float64` is always a `\d+,\d{2}` literal). -/
structure TicketLine where
  Name : String
  UnitPrice : Nat
  Quantity : Nat
deriving DecidableEq

/-- A parsed receipt. -/
structure Ticket where
  Store : String
  Date : GoDate
  InvoiceNumber : String
  Lines : List TicketLine
deriving DecidableEq

/-! ## Parser: line splitting and header scan (internal/ticket/parser.go) -/

/-- `strings.ReplaceAll text "\r\n" "\n"`. -/
def replaceCRLF : List Char → List Char
  | '\r' :: '\n' :: cs => '\n' :: replaceCRLF cs
  | c :: cs => c :: replaceCRLF cs
  | [] => []

/-- Worker for `splitLines`: split on `'\n'`, keeping empty lines. -/
def splitNLAux : List Char → List Char → List String
  | [], acc => [⟨acc.reverse⟩]
  | '\n' :: cs, acc => (⟨acc.reverse⟩ : String) :: splitNLAux cs []
  | c :: cs, acc => splitNLAux cs (c :: acc)

/-- `splitLines` of `internal/ticket/parser.go`. -/
def splitLines (text : String) : List String :=
  splitNLAux (replaceCRLF text.data) []

/-- Read exactly two decimal digits. -/
def take2Digits : List Char → Option (Nat × List Char)
  | a :: b :: rest =>
    if isDigitChar a && isDigitChar b then some (digitVal a * 10 + digitVal b, rest)
    else none
  | _ => none

/-- The regex `(\d{2}/\d{2}/\d{4})` (`reDateLine`) anchored at the current
position, returning the raw day/month/year numbers. -/
def matchDateHere (cs : List Char) : Option (Nat × Nat × Nat) :=
  match take2Digits cs with
  | none => none
  | some (d, r1) =>
    match r1 with
    | '/' :: r2 =>
      match take2Digits r2 with
      | none => none
      | some (m, r3) =>
        match r3 with
        | '/' :: a :: b :: c :: e :: _ =>
          if isDigitChar a && isDigitChar b && isDigitChar c && isDigitChar e then
            some (d, m, digitVal a * 1000 + digitVal b * 100 + digitVal c * 10 + digitVal e)
          else none
        | _ => none
    | _ => none

/-- Leftmost match of `reDateLine` in a line
(`FindStringSubmatch` semantics). -/
def findDateMatch : List Char → Option (Nat × Nat × Nat)
  | [] => none
  | c :: cs =>
    match matchDateHere (c :: cs) with
    | some r => some r
    | none => findDateMatch cs

/-- Gregorian leap year, as Go's `time` package computes it. -/
def isLeap (y : Nat) : Bool := y % 4 = 0 && (y % 100 ≠ 0 || y % 400 = 0)

/-- Days in a month, as Go's `time` package computes it. -/
def daysInMonth (m y : Nat) : Nat :=
  if m = 2 then (if isLeap y then 29 else 28)
  else if m = 4 ∨ m = 6 ∨ m = 9 ∨ m = 11 then 30
  else 31

/-- Calendar validity enforced by `time.Parse("02/01/2006", ·)`. -/
def validDate (d m y : Nat) : Bool :=
  1 ≤ m && m ≤ 12 && 1 ≤ d && d ≤ daysInMonth m y

/-- The date a header line yields: the leftmost `\d{2}/\d{2}/\d{4}` match,
if `time.Parse` accepts it (the code never looks at a second match in the
same line). -/
def lineDate (line : String) : Option GoDate :=
  match findDateMatch line.data with
  | some (d, m, y) => if validDate d m y then some ⟨d, m, y⟩ else none
  | none => none

/-- The literal part of `reInvoice`. -/
def invoiceLabel : List Char := "FACTURA SIMPLIFICADA:".data

/-- `reInvoice` (`FACTURA SIMPLIFICADA:\s*(\S+)`) anchored at the current
position. -/
def matchInvoiceHere (cs : List Char) : Option String :=
  match stripLit invoiceLabel cs with
  | none => none
  | some rest =>
    let tok := (rest.dropWhile reSpace).takeWhile (fun c => !reSpace c)
    if tok = [] then none else some ⟨tok⟩

/-- Leftmost match of `reInvoice` in a line. -/
def findInvoice : List Char → Option String
  | [] => none
  | c :: cs =>
    match matchInvoiceHere (c :: cs) with
    | some r => some r
    | none => findInvoice cs

/-- The per-line date update of the header loop: only a still-zero date
(`t.Date.IsZero()`) is replaced by the line's date, if any. -/
def headerDate (d : GoDate) (line : String) : GoDate :=
  if d = zeroDate then
    match lineDate line with
    | some dd => dd
    | none => d
  else d

/-- The per-line invoice update of the header loop: only a still-empty
invoice number is replaced by the line's `FACTURA SIMPLIFICADA:` capture,
if any. -/
def headerInv (inv : String) (line : String) : String :=
  if inv = "" then
    match findInvoice line.data with
    | some s => s
    | none => inv
  else inv

/-- The header loop of `Parse`: scan lines for the first date and the first
invoice number, stopping as soon as both are present.  `d = zeroDate`
plays the role of `t.Date.IsZero()`. -/
def scanHeader : List String → GoDate → String → GoDate × String
  | [], d, inv => (d, inv)
  | line :: rest, d, inv =>
    if headerDate d line ≠ zeroDate ∧ headerInv inv line ≠ "" then
      (headerDate d line, headerInv inv line)
    else scanHeader rest (headerDate d line) (headerInv inv line)

/-! ## Parser: shared body-line matchers -/

/-- `reFooter` (`TOTAL\s*\(€\)`) anchored at the current position. -/
def matchFooterHere (cs : List Char) : Bool :=
  match stripLit "TOTAL".data cs with
  | none => false
  | some rest =>
    match stripLit "(€)".data (rest.dropWhile reSpace) with
    | none => false
    | some _ => true

/-- `reFooter.MatchString`: unanchored search. -/
def containsFooter : List Char → Bool
  | [] => false
  | c :: cs => matchFooterHere (c :: cs) || containsFooter cs

/-- `reColumnHeaderSingle` (`Descripció\s+P\.\s*Unit\s+Import`) anchored at
the current position. -/
def matchColHeaderHere (cs : List Char) : Bool :=
  match stripLit "Descripció".data cs with
  | none => false
  | some r1 =>
    match r1 with
    | c :: r2 =>
      if reSpace c then
        match stripLit "P.".data (r2.dropWhile reSpace) with
        | none => false
        | some r3 =>
          match stripLit "Unit".data (r3.dropWhile reSpace) with
          | none => false
          | some r4 =>
            match r4 with
            | c' :: r5 =>
              reSpace c' && (stripLit "Import".data (r5.dropWhile reSpace)).isSome
            | [] => false
      else false
    | [] => false

/-- `reColumnHeaderSingle.MatchString`: unanchored search. -/
def containsColHeader : List Char → Bool
  | [] => false
  | c :: cs => matchColHeaderHere (c :: cs) || containsColHeader cs

/-- `reQty` (`^(\d+)$`) plus `strconv.Atoi`. -/
def matchQty (cs : List Char) : Option Nat :=
  if cs ≠ [] ∧ cs.all isDigitChar then some (digitsToNat cs) else none

/-- Euro cents denoted by a `\d+,\d{2}` price literal, as
`parsePrice` (comma→dot then `strconv.ParseFloat`) reads it. -/
def parsePriceCents (intPart : List Char) (d1 d2 : Char) : Nat :=
  digitsToNat intPart * 100 + digitVal d1 * 10 + digitVal d2

/-- `rePrice` (`^(\d+,\d{2})$`) plus `parsePrice`. -/
def matchPrice (cs : List Char) : Option Nat :=
  let ip := cs.takeWhile isDigitChar
  match cs.dropWhile isDigitChar with
  | ',' :: d1 :: d2 :: [] =>
    if ip ≠ [] ∧ isDigitChar d1 ∧ isDigitChar d2 then some (parsePriceCents ip d1 d2)
    else none
  | _ => none

/-- `reWeightKg` (`^(\d+,\d+)\s*kg$`). -/
def matchWeightKg (cs : List Char) : Bool :=
  let ip := cs.takeWhile isDigitChar
  match cs.dropWhile isDigitChar with
  | ',' :: r1 =>
    let fp := r1.takeWhile isDigitChar
    !ip.isEmpty && !fp.isEmpty &&
      ((r1.dropWhile isDigitChar).dropWhile reSpace == ['k', 'g'])
  | _ => false

/-- `rePricePerKg` (`^(\d+,\d{2})\s*€/kg$`) plus `parsePrice` of the
capture. -/
def matchPricePerKg (cs : List Char) : Option Nat :=
  let ip := cs.takeWhile isDigitChar
  match cs.dropWhile isDigitChar with
  | ',' :: d1 :: d2 :: r =>
    if ip ≠ [] ∧ isDigitChar d1 ∧ isDigitChar d2 ∧
        r.dropWhile reSpace = ['€', '/', 'k', 'g'] then
      some (parsePriceCents ip d1 d2)
    else none
  | _ => none

/-! ## Parser: multi-line body state machine -/

/-- States of `parseMultiLineBody`. -/
inductive MLState
  | sIdle
  | sQty
  | sNameLine
  | sPrice
  | sWeightPPK
  | sTotal
deriving DecidableEq

/-- Mutable state of the `parseMultiLineBody` loop: current state plus the
pending quantity and product name. -/
structure MLAcc where
  state : MLState
  pendingName : String
  pendingQty : Nat
deriving DecidableEq

/-- Initial loop state. -/
def initMLAcc : MLAcc := ⟨.sIdle, "", 0⟩

/-- One iteration of the `parseMultiLineBody` loop on a non-footer line
(already trimmed), returning the new loop state and the emitted
`TicketLine`s. -/
def mlStep (acc : MLAcc) (t : String) : MLAcc × List TicketLine :=
  if acc.state = .sIdle then
    (if t = "Descripció" then { acc with state := .sQty } else acc, [])
  else if t = "" then (acc, [])
  else
    match acc.state with
    | .sIdle => (acc, [])
    | .sQty =>
      match matchQty t.data with
      | some q => ({ acc with pendingQty := q, state := .sNameLine }, [])
      | none => (acc, [])
    | .sNameLine =>
      if t = "P. Unit" ∨ t = "Import" then (acc, [])
      else if (matchPrice t.data).isSome || (matchQty t.data).isSome then
        ({ acc with state := .sQty, pendingQty := 0 }, [])
      else ({ acc with pendingName := t, state := .sPrice }, [])
    | .sPrice =>
      if matchWeightKg t.data then ({ acc with state := .sWeightPPK }, [])
      else
        match matchPrice t.data with
        | some price =>
          if acc.pendingQty = 1 then
            ({ acc with state := .sQty }, [⟨acc.pendingName, price, acc.pendingQty⟩])
          else
            ({ acc with state := .sTotal }, [⟨acc.pendingName, price, acc.pendingQty⟩])
        | none => ({ acc with state := .sQty }, [])
    | .sWeightPPK =>
      match matchPricePerKg t.data with
      | some price =>
        ({ acc with state := .sTotal }, [⟨acc.pendingName, price, acc.pendingQty⟩])
      | none => (acc, [])
    | .sTotal => ({ acc with state := .sQty }, [])

/-- What it means for a (trimmed, non-empty) body line to fail to match
the token expected in a given `parseMultiLineBody` state: no quantity in
`sQty`; a price or quantity where a product name was expected in
`sNameLine`; neither a weight nor a price in `sPrice`; no €/kg value in
`sWeightPPK`.  In `sTotal` every line is accepted (and discarded), and
`sIdle` is outside the body. -/
def mlLineFails (st : MLState) (t : String) : Prop :=
  match st with
  | .sQty => matchQty t.data = none
  | .sNameLine => (matchPrice t.data).isSome ∨ (matchQty t.data).isSome
  | .sPrice => ¬matchWeightKg t.data ∧ matchPrice t.data = none
  | .sWeightPPK => matchPricePerKg t.data = none
  | .sTotal => False
  | .sIdle => False

/-- The `parseMultiLineBody` loop: trim each line, stop at the footer,
otherwise apply `mlStep`. -/
def mlGo : List String → MLAcc → List TicketLine → List TicketLine
  | [], _, out => out
  | raw :: rest, acc, out =>
    if containsFooter (trimSpace raw).data then out
    else mlGo rest (mlStep acc (trimSpace raw)).1 (out ++ (mlStep acc (trimSpace raw)).2)

/-- `parseMultiLineBody` of `internal/ticket/parser.go`. -/
def parseMultiLineBody (lines : List String) : List TicketLine :=
  mlGo lines initMLAcc []

/-! ## Parser: legacy single-line body -/

/-- Nesting-order backtracking helper: try `k` on `n, n-1, …, lo` and
return the first success (the greedy choice order of a `\s{2,}`
quantifier). -/
def tryDownFrom (k : Nat → Option α) (lo : Nat) : Nat → Option α
  | 0 => if lo = 0 then k 0 else none
  | Nat.succ i =>
    if Nat.succ i < lo then none
    else ((k (Nat.succ i)).orElse fun _ => tryDownFrom k lo i)

/-- Backtracking helper: try `k` on `start, start+1, …, start+fuel` and
return the first success (the choice order of a lazy `.+?`). -/
def tryUpFrom (k : Nat → Option α) : Nat → Nat → Option α
  | start, 0 => k start
  | start, Nat.succ fuel => (k start).orElse fun _ => tryUpFrom k (start + 1) fuel

/-- The tail `(\d+,\d{2})\s*$` shared by the single-line item regexes,
returning the price in cents. -/
def matchPriceTail (cs : List Char) : Option Nat :=
  let ip := cs.takeWhile isDigitChar
  match cs.dropWhile isDigitChar with
  | ',' :: d1 :: d2 :: r =>
    if ip ≠ [] ∧ isDigitChar d1 ∧ isDigitChar d2 ∧ r.all reSpace then
      some (parsePriceCents ip d1 d2)
    else none
  | _ => none

/-- True when the character list contains no newline (the class matched by
`.`). -/
def noNewline (cs : List Char) : Bool := cs.all (fun c => c != '\n')

/-- The part `(.+?)\s{2,}(\d+,\d{2})\s*$` of `reUnitSingle` after the
leading `1\s{2,}` has consumed its characters: lazy name, then a maximal
(deterministic, since a space cannot start the price) `\s{2,}` run, then
the price tail. -/
def unitSingleTail (after : List Char) : Option (String × Nat) :=
  tryUpFrom (fun l =>
      let name := after.take l
      if noNewline name then
        let r2 := after.drop l
        let m := (r2.takeWhile reSpace).length
        if 2 ≤ m then (matchPriceTail (r2.drop m)).map (fun pc => (String.mk name, pc))
        else none
      else none)
    1 (after.length - 1)

/-- `reUnitSingle` (`^1\s{2,}(.+?)\s{2,}(\d+,\d{2})\s*$`) with Go's
leftmost-first capture semantics: the leading `\s{2,}` is greedy (longest
run first), the name group is lazy. -/
def matchUnitSingle : List Char → Option (String × Nat)
  | '1' :: rest =>
    let mx := (rest.takeWhile reSpace).length
    tryDownFrom (fun n1 => unitSingleTail (rest.drop n1)) 2 mx
  | _ => none

/-- The tail `(\d+,\d{2})\s{2,}\d+,\d{2}\s*$` of `reUnitMulti`: unit price
capture, mandatory gap, discarded line total.  Returns
(unit price cents, line total cents). -/
def matchPriceThenTotal (cs : List Char) : Option (Nat × Nat) :=
  let ip := cs.takeWhile isDigitChar
  match cs.dropWhile isDigitChar with
  | ',' :: d1 :: d2 :: r =>
    if ip ≠ [] ∧ isDigitChar d1 ∧ isDigitChar d2 then
      let m := (r.takeWhile reSpace).length
      if 2 ≤ m then
        match matchPriceTail (r.drop m) with
        | some tc => some (parsePriceCents ip d1 d2, tc)
        | none => none
      else none
    else none
  | _ => none

/-- The part after `^(\d+)\s{2,}` of `reUnitMulti`: lazy name then
`matchPriceThenTotal`. -/
def unitMultiTail (after : List Char) : Option (String × Nat × Nat) :=
  tryUpFrom (fun l =>
      let name := after.take l
      if noNewline name then
        let r2 := after.drop l
        let m := (r2.takeWhile reSpace).length
        if 2 ≤ m then (matchPriceThenTotal (r2.drop m)).map (fun pt => (String.mk name, pt))
        else none
      else none)
    1 (after.length - 1)

/-- `reUnitMulti` (`^(\d+)\s{2,}(.+?)\s{2,}(\d+,\d{2})\s{2,}\d+,\d{2}\s*$`)
returning (quantity, raw name, unit price cents, line total cents). -/
def matchUnitMulti (cs : List Char) : Option (Nat × String × Nat × Nat) :=
  let q := cs.takeWhile isDigitChar
  if q.isEmpty then none
  else
    let rest := cs.drop q.length
    let mx := (rest.takeWhile reSpace).length
    (tryDownFrom (fun n1 => unitMultiTail (rest.drop n1)) 2 mx).map
      (fun r => (digitsToNat q, r))

/-- `reWeightLineSingle`
(`^(\d+,\d+)\s*kg\s+(\d+,\d{2})\s*€/kg\s+\d+,\d{2}\s*$`), deterministic,
returning (raw weight, price-per-kg cents, line total cents). -/
def matchWeightLineSingle (cs : List Char) : Option (String × Nat × Nat) :=
  let w1 := cs.takeWhile isDigitChar
  match cs.dropWhile isDigitChar with
  | ',' :: r1 =>
    let w2 := r1.takeWhile isDigitChar
    if w1 ≠ [] ∧ w2 ≠ [] then
      match stripLit "kg".data ((r1.dropWhile isDigitChar).dropWhile reSpace) with
      | some r2 =>
        match r2 with
        | c :: r3 =>
          if reSpace c then
            let r4 := r3.dropWhile reSpace
            let ip := r4.takeWhile isDigitChar
            match r4.dropWhile isDigitChar with
            | ',' :: d1 :: d2 :: r5 =>
              if ip ≠ [] ∧ isDigitChar d1 ∧ isDigitChar d2 then
                match stripLit "€/kg".data (r5.dropWhile reSpace) with
                | some r6 =>
                  match r6 with
                  | c' :: r7 =>
                    if reSpace c' then
                      let r8 := r7.dropWhile reSpace
                      let tp := r8.takeWhile isDigitChar
                      match r8.dropWhile isDigitChar with
                      | ',' :: e1 :: e2 :: r9 =>
                        if tp ≠ [] ∧ isDigitChar e1 ∧ isDigitChar e2 ∧ r9.all reSpace then
                          some (String.mk (w1 ++ ',' :: w2),
                            parsePriceCents ip d1 d2, parsePriceCents tp e1 e2)
                        else none
                      | _ => none
                    else none
                  | [] => none
                | none => none
              else none
            | _ => none
          else none
        | [] => none
      | none => none
    else none
  | _ => none

/-- `MatchString` of the inline regex `\d+,\d{2}\s*$` used by the
weight-product first-line check. -/
def hasTrailingPrice (cs : List Char) : Bool :=
  match cs.reverse.dropWhile reSpace with
  | d2 :: d1 :: ',' :: d0 :: _ => isDigitChar d2 && isDigitChar d1 && isDigitChar d0
  | _ => false

/-- The per-line item logic of `parseSingleLineBody` once the pending
weight product has been handled: qty>1 item, then qty=1 item, then the
weight-product first line.  Returns the new pending weight-product name
and the emitted lines. -/
def slLine (t : String) : String × List TicketLine :=
  match matchUnitMulti t.data with
  | some (q, name, pc, _total) => ("", [⟨trimSpace name, pc, q⟩])
  | none =>
    match matchUnitSingle t.data with
    | some (name, pc) => ("", [⟨trimSpace name, pc, 1⟩])
    | none =>
      match t.data with
      | '1' :: c :: rest =>
        if c = ' ' ∨ c = '\t' then
          if ¬hasTrailingPrice (trimSpace ⟨c :: rest⟩).data ∧ trimSpace ⟨c :: rest⟩ ≠ "" then
            (trimSpace ⟨c :: rest⟩, [])
          else ("", [])
        else ("", [])
      | _ => ("", [])

/-- One iteration of the `parseSingleLineBody` loop on a non-footer line
(already trimmed): column-header detection, body gating, weight
continuation, then `slLine`. -/
def slStep (inBody : Bool) (pw : String) (t : String) :
    (Bool × String) × List TicketLine :=
  if containsColHeader t.data then ((true, pw), [])
  else if ¬inBody ∨ t = "" then ((inBody, pw), [])
  else if pw ≠ "" then
    match matchWeightLineSingle t.data with
    | some (_w, ppk, _tot) => ((inBody, ""), [⟨pw, ppk, 1⟩])
    | none => ((inBody, (slLine t).1), (slLine t).2)
  else ((inBody, (slLine t).1), (slLine t).2)

/-- The `parseSingleLineBody` loop. -/
def slGo : List String → Bool → String → List TicketLine → List TicketLine
  | [], _, _, out => out
  | raw :: rest, inBody, pw, out =>
    if containsFooter (trimSpace raw).data then out
    else
      slGo rest (slStep inBody pw (trimSpace raw)).1.1 (slStep inBody pw (trimSpace raw)).1.2
        (out ++ (slStep inBody pw (trimSpace raw)).2)

/-- `parseSingleLineBody` of `internal/ticket/parser.go`. -/
def parseSingleLineBody (lines : List String) : List TicketLine :=
  slGo lines false "" []

/-- `MercadonaParser.Parse`: header scan, then body-format detection, then
the matching body parser. -/
def Parse (text : String) : Except String Ticket :=
  if (scanHeader (splitLines text) zeroDate "").1 = zeroDate then
    .error "could not find date in receipt"
  else if (splitLines text).any (fun l => containsColHeader l.data) then
    .ok ⟨"Mercadona", (scanHeader (splitLines text) zeroDate "").1,
      (scanHeader (splitLines text) zeroDate "").2, parseSingleLineBody (splitLines text)⟩
  else
    .ok ⟨"Mercadona", (scanHeader (splitLines text) zeroDate "").1,
      (scanHeader (splitLines text) zeroDate "").2, parseMultiLineBody (splitLines text)⟩

/-! ## Import orchestrator (internal/ticket/importer.go) -/

/-- A single price observation (`models.PriceRecord`); the price is in
euro cents. -/
structure PriceRecord where
  Date : GoDate
  Price : Nat
  Store : String
deriving DecidableEq

/-- The unit of work for batch persistence (`models.PriceRecordEntry`). -/
structure PriceRecordEntry where
  Name : String
  Record : PriceRecord
deriving DecidableEq

/-- Summary returned by `Importer.Import`. -/
structure ImportResult where
  InvoiceNumber : String
  LinesImported : Nat
deriving DecidableEq

/-- The entry built from one ticket line inside `Import`. -/
def mkEntry (t : Ticket) (line : TicketLine) : PriceRecordEntry :=
  ⟨line.Name, ⟨t.Date, line.UnitPrice, t.Store⟩⟩

/-- `Importer.Import`, with the PDF extractor's outcome and the
persistence contract (`UpsertPriceRecordBatch`, returning an error or
success) passed as oracles.  The second component records every batch
handed to persistence, so that atomicity is an observable property. -/
def ImportTr (extractRes : Except String String)
    (persist : List PriceRecordEntry → Option String) :
    Except String ImportResult × List (List PriceRecordEntry) :=
  match extractRes with
  | .error e => (.error ("extract pdf text: " ++ e), [])
  | .ok text =>
    match Parse text with
    | .error e => (.error ("parse receipt: " ++ e), [])
    | .ok t =>
      match persist (t.Lines.map (mkEntry t)) with
      | some e => (.error ("persist ticket " ++ t.InvoiceNumber ++ ": " ++ e),
          [t.Lines.map (mkEntry t)])
      | none => (.ok ⟨t.InvoiceNumber, (t.Lines.map (mkEntry t)).length⟩,
          [t.Lines.map (mkEntry t)])


/-! ## Dictionary sanity values (evaluated once by the kernel) -/

/-- Radix-style code of a string; mapping the dictionary scans to `Nat`
comparisons keeps the kernel evaluation of `valueWordsFixed` fast.  Only
congruence (never injectivity) of this map is used. -/
def encodeStr (s : String) : Nat :=
  s.data.foldl (fun n c => n * 1114112 + (c.toNat + 1)) 1

/-- Every word of every dictionary value. -/
def valueWords : List String := catalanToSpanish.flatMap (fun p => fields p.2)

/-- Dictionary keys whose value is not the key itself. -/
def nonFixedKeys : List String :=
  (catalanToSpanish.filter (fun p => p.2 != p.1)).map Prod.fst

/-- Codes of `nonFixedKeys`. -/
def nonFixedKeysEnc : List Nat := nonFixedKeys.map encodeStr

/-- No word of a dictionary value is a key that rewrites to something
else. -/
def valueWordsFixed : Bool :=
  (valueWords.map encodeStr).all (fun x => !nonFixedKeysEnc.contains x)

/-- Every non-empty dictionary value splits into at least one word and is
reassembled exactly by a single-space join of its words. -/
def valuesJoinOK : Bool :=
  catalanToSpanish.all (fun p =>
    p.2 == "" || (!(fields p.2).isEmpty && joinWords (fields p.2) == p.2))

/-! # Theorems -/

/-! ## Word splitting / joining: supporting lemmas -/

theorem wordsAux_append_space (a b : List Char) :
    ∀ acc, wordsAux (a ++ ' ' :: b) acc = wordsAux a acc ++ wordsAux b [] := by
  induction a with
  | nil =>
    intro acc
    simp only [List.nil_append, wordsAux, show goIsSpace ' ' = true from rfl, if_true]
    by_cases h : acc = ([] : List Char) <;> simp [h]
  | cons c a ih =>
    intro acc
    simp only [List.cons_append, wordsAux]
    by_cases hc : goIsSpace c <;> by_cases h : acc = ([] : List Char) <;>
      simp [hc, h, ih]

theorem wordsAux_shape :
    ∀ (cs acc : List Char), (∀ c ∈ acc, goIsSpace c = false) →
      ∀ w ∈ wordsAux cs acc, w ≠ [] ∧ ∀ c ∈ w, goIsSpace c = false := by
  intro cs
  induction cs with
  | nil =>
    intro acc hacc w hw
    rw [wordsAux] at hw
    by_cases h : acc = ([] : List Char)
    · simp [h] at hw
    · rw [if_neg h] at hw
      rcases List.mem_singleton.mp hw with rfl
      refine ⟨by simpa using h, ?_⟩
      intro c hc
      exact hacc c (List.mem_reverse.mp hc)
  | cons c cs ih =>
    intro acc hacc w hw
    rw [wordsAux] at hw
    by_cases hc : goIsSpace c
    · rw [if_pos hc] at hw
      by_cases h : acc = ([] : List Char)
      · rw [if_pos h] at hw
        exact ih [] (by simp) w hw
      · rw [if_neg h] at hw
        rcases List.mem_cons.mp hw with rfl | hw'
        · refine ⟨by simpa using h, ?_⟩
          intro x hx
          exact hacc x (List.mem_reverse.mp hx)
        · exact ih [] (by simp) w hw'
    · rw [if_neg hc] at hw
      refine ih (c :: acc) ?_ w hw
      intro x hx
      rcases List.mem_cons.mp hx with rfl | hx'
      · exact Bool.not_eq_true _ ▸ eq_false_of_ne_true hc
      · exact hacc x hx'

theorem wordsAux_all_nonspace :
    ∀ (w acc : List Char), (∀ c ∈ w, goIsSpace c = false) →
      acc.reverse ++ w ≠ [] → wordsAux w acc = [acc.reverse ++ w] := by
  intro w
  induction w with
  | nil =>
    intro acc _ hne
    rw [wordsAux]
    have h : acc ≠ [] := by simpa using hne
    simp [h]
  | cons c w ih =>
    intro acc hns _
    have hc : goIsSpace c = false := hns c (by simp)
    rw [wordsAux, if_neg (by simp [hc])]
    rw [ih (c :: acc) (fun x hx => hns x (by simp [hx])) (by simp)]
    simp

theorem splitWords_token (w : List Char) (hne : w ≠ [])
    (hns : ∀ c ∈ w, goIsSpace c = false) : splitWords w = [w] := by
  simpa [splitWords] using wordsAux_all_nonspace w [] hns (by simpa using hne)

theorem splitWords_joinChars :
    ∀ ws : List (List Char), splitWords (joinChars ws) = ws.flatMap splitWords := by
  intro ws
  induction ws with
  | nil => rfl
  | cons w ws ih =>
    cases ws with
    | nil => simp [joinChars]
    | cons w' ws' =>
      rw [joinChars]
      show splitWords (w ++ ' ' :: joinChars (w' :: ws')) = _
      rw [splitWords, wordsAux_append_space]
      rw [show wordsAux (joinChars (w' :: ws')) [] = splitWords (joinChars (w' :: ws')) from rfl]
      rw [ih]
      simp [splitWords, List.flatMap_cons]

theorem joinChars_append :
    ∀ (xs ys : List (List Char)), xs ≠ [] → ys ≠ [] →
      joinChars (xs ++ ys) = joinChars xs ++ ' ' :: joinChars ys := by
  intro xs
  induction xs with
  | nil => intro ys h _; exact absurd rfl h
  | cons w xs ih =>
    intro ys _ hys
    cases xs with
    | nil =>
      cases ys with
      | nil => exact absurd rfl hys
      | cons y ys' => simp [joinChars]
    | cons w' xs' =>
      have ih' := ih ys (by simp) hys
      simp only [List.cons_append] at ih' ⊢
      rw [joinChars, ih', joinChars]
      simp

theorem joinChars_flatMap (g : List Char → List (List Char)) :
    ∀ l : List (List Char), (∀ w ∈ l, g w ≠ [] ∧ joinChars (g w) = w) →
      joinChars (l.flatMap g) = joinChars l := by
  intro l
  induction l with
  | nil => intro _; rfl
  | cons w l ih =>
    intro h
    have hw := h w (by simp)
    cases l with
    | nil =>
      rw [List.flatMap_cons, List.flatMap_nil, List.append_nil, hw.2]
      rfl
    | cons w' l' =>
      have hl : (w' :: l').flatMap g ≠ [] := by
        rw [List.flatMap_cons]
        exact List.append_ne_nil_of_left_ne_nil ((h w' (by simp)).1) _
      rw [List.flatMap_cons, joinChars_append _ _ hw.1 hl, hw.2,
        ih (fun x hx => h x (by simp [hx])), joinChars]

theorem fields_joinWords (l : List String) :
    fields (joinWords l) = l.flatMap fields := by
  show (splitWords (joinChars (l.map String.data))).map String.mk = _
  rw [splitWords_joinChars, List.flatMap_map, List.map_flatMap]
  rfl

theorem joinWords_flatMap (g : String → List String) (l : List String)
    (h : ∀ w ∈ l, g w ≠ [] ∧ joinWords (g w) = w) :
    joinWords (l.flatMap g) = joinWords l := by
  have key := joinChars_flatMap (fun cs => (g ⟨cs⟩).map String.data) (l.map String.data) ?_
  · apply String.ext
    show joinChars ((l.flatMap g).map String.data) = joinChars (l.map String.data)
    rw [List.map_flatMap]
    rw [List.flatMap_map] at key
    exact key
  · intro w hw
    rcases List.mem_map.mp hw with ⟨x, hx, rfl⟩
    constructor
    · simpa using (h x hx).1
    · show joinChars ((g x).map String.data) = x.data
      exact congrArg String.data ((h x hx).2)

theorem mem_fields_shape {t s : String} (h : t ∈ fields s) :
    t ≠ "" ∧ ∀ c ∈ t.data, goIsSpace c = false := by
  rcases List.mem_map.mp h with ⟨w, hw, rfl⟩
  have hs := wordsAux_shape s.data [] (by simp) w hw
  exact ⟨fun hc => hs.1 (congrArg String.data hc), hs.2⟩

theorem fields_token {t : String} (hne : t ≠ "")
    (hns : ∀ c ∈ t.data, goIsSpace c = false) : fields t = [t] := by
  have hd : t.data ≠ [] := fun hc => hne (String.ext hc)
  show (splitWords t.data).map String.mk = [t]
  rw [splitWords_token t.data hd hns]
  rfl

/-! ## Dictionary facts -/

set_option maxRecDepth 1000000 in
set_option maxHeartbeats 4000000 in
theorem valueWordsFixed_true : valueWordsFixed = true := rfl

set_option maxRecDepth 1000000 in
set_option maxHeartbeats 4000000 in
theorem valuesJoinOK_true : valuesJoinOK = true := rfl

theorem lookup_mem {l : List (String × String)} {a b : String}
    (h : l.lookup a = some b) : (a, b) ∈ l := by
  induction l with
  | nil => simp [List.lookup] at h
  | cons p l ih =>
    rcases p with ⟨k, v⟩
    rw [List.lookup] at h
    by_cases hk : (a == k) = true
    · rw [hk] at h
      rcases Option.some.inj h with rfl
      exact (beq_iff_eq.mp hk) ▸ List.mem_cons_self _ _
    · rw [Bool.not_eq_true] at hk
      rw [hk] at h
      exact List.mem_cons_of_mem _ (ih h)

theorem translateTok_valueWord {u : String} (hu : u ∈ valueWords) (hne : u ≠ "") :
    translateTok u = [u] := by
  cases hl : catalanToSpanish.lookup u with
  | none => simp [translateTok, hl]
  | some v =>
    have hv : v = u := by
      by_contra hvne
      have hmem : u ∈ nonFixedKeys :=
        List.mem_map.mpr ⟨(u, v),
          List.mem_filter.mpr ⟨lookup_mem hl, by simpa using fun hc => hvne hc⟩, rfl⟩
      have henc : nonFixedKeysEnc.contains (encodeStr u) = true :=
        List.elem_iff.mpr (List.mem_map.mpr ⟨u, hmem, rfl⟩)
      have hvw : encodeStr u ∈ valueWords.map encodeStr :=
        List.mem_map.mpr ⟨u, hu, rfl⟩
      have := List.all_eq_true.mp valueWordsFixed_true _ hvw
      rw [henc] at this
      simp at this
    subst hv
    simp [translateTok, hl, hne]

theorem value_join {k v : String} (hm : (k, v) ∈ catalanToSpanish) (hv : v ≠ "") :
    fields v ≠ [] ∧ joinWords (fields v) = v := by
  have h := List.all_eq_true.mp valuesJoinOK_true (k, v) hm
  simp only [Bool.or_eq_true, beq_iff_eq] at h
  rcases h with h | h
  · exact absurd h hv
  · simp only [Bool.and_eq_true, Bool.not_eq_true', beq_iff_eq] at h
    refine ⟨fun hc => ?_, h.2⟩
    rw [hc] at h
    simp at h

theorem outToken_ok {s : String} :
    ∀ t ∈ (fields s).flatMap translateTok,
      fields t ≠ [] ∧ joinWords (fields t) = t ∧ ∀ u ∈ fields t, translateTok u = [u] := by
  intro t ht
  rcases List.mem_flatMap.mp ht with ⟨t0, ht0, htt⟩
  cases hl : catalanToSpanish.lookup t0 with
  | none =>
    rw [translateTok, hl] at htt
    rcases List.mem_singleton.mp htt with rfl
    have hs := mem_fields_shape ht0
    have hft : fields t = [t] := fields_token hs.1 hs.2
    refine ⟨by simp [hft], by simp [hft, joinWords, joinChars], ?_⟩
    intro u hu
    rw [hft] at hu
    rcases List.mem_singleton.mp hu with rfl
    simp [translateTok, hl]
  | some v =>
    rw [translateTok, hl] at htt
    change t ∈ (if v = "" then [] else [v]) at htt
    by_cases hv : v = ""
    · simp [hv] at htt
    · rw [if_neg hv] at htt
      rcases List.mem_singleton.mp htt with rfl
      have hj := value_join (lookup_mem hl) hv
      refine ⟨hj.1, hj.2, ?_⟩
      intro u hu
      have huv : u ∈ valueWords :=
        List.mem_flatMap.mpr ⟨(t0, t), lookup_mem hl, hu⟩
      exact translateTok_valueWord huv (mem_fields_shape hu).1

theorem flatMap_id_of_singleton {f : String → List String} :
    ∀ l : List String, (∀ u ∈ l, f u = [u]) → l.flatMap f = l := by
  intro l
  induction l with
  | nil => intro _; rfl
  | cons a l ih =>
    intro h
    rw [List.flatMap_cons, h a (by simp), ih (fun u hu => h u (by simp [hu]))]
    rfl

/-- C9: `translateCatalan` is idempotent — every token of its output (a
dictionary value word or a passed-through token) is left unchanged by a
second application, and re-applying the whole rewrite to its own output
returns that output.  The rewrite itself is the pure, order-preserving,
tokenwise map `translateTok` (found-with-value → replaced,
found-with-empty-value → dropped, not found → unchanged) by definition. -/
theorem translateCatalan_idempotent (s : String) :
    (∀ t ∈ fields (translateCatalan s), translateTok t = [t]) ∧
    translateCatalan (translateCatalan s) = translateCatalan s := by
  have hfj : fields (translateCatalan s) = ((fields s).flatMap translateTok).flatMap fields := by
    rw [translateCatalan, fields_joinWords]
  constructor
  · intro t ht
    rw [hfj] at ht
    rcases List.mem_flatMap.mp ht with ⟨t', ht', htf⟩
    exact (outToken_ok t' ht').2.2 t htf
  · show joinWords ((fields (translateCatalan s)).flatMap translateTok) =
      joinWords ((fields s).flatMap translateTok)
    rw [hfj, List.flatMap_assoc]
    refine joinWords_flatMap _ _ ?_
    intro t ht
    have h := outToken_ok t ht
    rw [flatMap_id_of_singleton (fields t) h.2.2]
    exact ⟨h.1, h.2.1⟩


/-! ## Fuzzy matcher: supporting lemmas -/

theorem dice_nonneg (kw ks : List String) : 0 ≤ dice kw ks := by
  rw [dice]
  positivity

theorem bestDice_nonneg (kw : List String) (index : ProductIndex) :
    0 ≤ bestDice kw index := by
  rw [bestDice]
  induction index.filter (fun e => !e.Keywords.isEmpty) with
  | nil => exact le_refl 0
  | cons e l ih => exact le_trans ih (le_max_right _ _)

theorem bestDice_cons (kw : List String) (e : ProductEntry) (index : ProductIndex) :
    bestDice kw (e :: index) =
      if e.Keywords = [] then bestDice kw index
      else max (dice kw e.Keywords) (bestDice kw index) := by
  rw [bestDice, bestDice, List.filter_cons]
  by_cases h : e.Keywords = []
  · simp [h]
  · simp [h, List.isEmpty_iff]

theorem dice_of_matched_zero {kw ks : List String}
    (h : matchedCount kw ks = 0) : dice kw ks = 0 := by
  rw [dice, h]
  norm_num

theorem bmFold_fst (kw : List String) :
    ∀ (index : ProductIndex) (bs : ℚ) (bu : String), 0 ≤ bs →
      (bmFold kw index bs bu).1 = max bs (bestDice kw index) := by
  intro index
  induction index with
  | nil =>
    intro bs bu h
    rw [bmFold]
    show bs = max bs (bestDice kw [])
    rw [show bestDice kw [] = 0 from rfl, max_eq_left h]
  | cons e index ih =>
    intro bs bu h
    have hd : (2 * (matchedCount kw e.Keywords : ℚ) / (kw.length + e.Keywords.length)) =
      dice kw e.Keywords := rfl
    rw [bmFold, bestDice_cons]
    by_cases hk : e.Keywords = []
    · rw [if_pos hk, if_pos hk]
      exact ih bs bu h
    · rw [if_neg hk, if_neg hk]
      by_cases hm : matchedCount kw e.Keywords = 0
      · rw [if_pos hm, ih bs bu h, dice_of_matched_zero hm,
          max_eq_right (bestDice_nonneg kw index)]
      · rw [if_neg hm, hd]
        by_cases hlt : bs < dice kw e.Keywords
        · rw [if_pos hlt, ih _ _ (dice_nonneg kw e.Keywords)]
          exact (max_eq_right (le_of_lt (lt_of_lt_of_le hlt (le_max_left _ _)))).symm
        · rw [if_neg hlt, ih bs bu h, ← max_assoc, max_eq_left (not_lt.mp hlt)]

theorem bmFold_result (kw : List String) :
    ∀ (index : ProductIndex) (bs : ℚ) (bu : String),
      ((bmFold kw index bs bu).1 = bs ∧ (bmFold kw index bs bu).2 = bu) ∨
      (∃ e ∈ index, e.Keywords ≠ [] ∧ (bmFold kw index bs bu).2 = e.Thumbnail ∧
        (bmFold kw index bs bu).1 = dice kw e.Keywords) := by
  intro index
  induction index with
  | nil => intro bs bu; exact Or.inl ⟨rfl, rfl⟩
  | cons e index ih =>
    intro bs bu
    have hd : (2 * (matchedCount kw e.Keywords : ℚ) / (kw.length + e.Keywords.length)) =
      dice kw e.Keywords := rfl
    rw [bmFold]
    by_cases hk : e.Keywords = []
    · rw [if_pos hk]
      rcases ih bs bu with h | ⟨f, hf, hfk, hu, hs⟩
      · exact Or.inl h
      · exact Or.inr ⟨f, List.mem_cons_of_mem _ hf, hfk, hu, hs⟩
    · rw [if_neg hk]
      by_cases hm : matchedCount kw e.Keywords = 0
      · rw [if_pos hm]
        rcases ih bs bu with h | ⟨f, hf, hfk, hu, hs⟩
        · exact Or.inl h
        · exact Or.inr ⟨f, List.mem_cons_of_mem _ hf, hfk, hu, hs⟩
      · rw [if_neg hm, hd]
        by_cases hlt : bs < dice kw e.Keywords
        · rw [if_pos hlt]
          rcases ih (dice kw e.Keywords) e.Thumbnail with h | ⟨f, hf, hfk, hu, hs⟩
          · exact Or.inr ⟨e, List.mem_cons_self _ _, hk, h.2, h.1⟩
          · exact Or.inr ⟨f, List.mem_cons_of_mem _ hf, hfk, hu, hs⟩
        · rw [if_neg hlt]
          rcases ih bs bu with h | ⟨f, hf, hfk, hu, hs⟩
          · exact Or.inl h
          · exact Or.inr ⟨f, List.mem_cons_of_mem _ hf, hfk, hu, hs⟩

theorem bmFold_filter (kw : List String) :
    ∀ (index : ProductIndex) (bs : ℚ) (bu : String),
      bmFold kw (index.filter (fun e => !e.Keywords.isEmpty)) bs bu =
        bmFold kw index bs bu := by
  intro index
  induction index with
  | nil => intro bs bu; rfl
  | cons e index ih =>
    intro bs bu
    rw [List.filter_cons]
    by_cases hk : e.Keywords = []
    · have : (!e.Keywords.isEmpty) = false := by simp [hk]
      rw [this, if_neg (by simp)]
      rw [bmFold, if_pos hk]
      exact ih bs bu
    · have : (!e.Keywords.isEmpty) = true := by simp [List.isEmpty_iff, hk]
      rw [this, if_pos rfl]
      rw [bmFold, bmFold, if_neg hk, if_neg hk]
      by_cases hm : matchedCount kw e.Keywords = 0
      · rw [if_pos hm, if_pos hm, ih]
      · rw [if_neg hm, if_neg hm]
        by_cases hlt : bs <
            2 * (matchedCount kw e.Keywords : ℚ) / (kw.length + e.Keywords.length)
        · rw [if_pos hlt, if_pos hlt, ih]
        · rw [if_neg hlt, if_neg hlt, ih]

theorem bestMatch_sample :
    bestMatch ["yogur", "natural"] sampleIndex = ("T1", true) := by
  have h1 : matchedCount ["yogur", "natural"] ["yogur", "natural"] = 2 := rfl
  have h2 : matchedCount ["yogur", "natural"] ["yogur", "coco"] = 1 := rfl
  norm_num [bestMatch, bmFold, sampleIndex, h1, h2, minMatchScore, List.cons_ne_nil]

/-- C1: `bestMatch` against any local keyword list and index: an empty
local list never matches; entries with an empty keyword set never
influence the result; the match flag is `true` exactly when the best Dice
coefficient `2·|intersection|/(|local|+|entry|)` over the index reaches
the fixed threshold `1/2`; on a match the returned URL is the thumbnail
of an index entry attaining that best score; and on the specification's
sample (`["yogur","natural"]` against `[["yogur","natural"],
["yogur","coco"]]`) the first entry (Dice 1) is returned rather than the
second (Dice 1/2). -/
theorem bestMatch_correct (localKW : List String) (index : ProductIndex) :
    (bestMatch [] index = ("", false)) ∧
    (bestMatch localKW (index.filter (fun e => !e.Keywords.isEmpty)) =
      bestMatch localKW index) ∧
    ((bestMatch localKW index).2 = true ↔
      localKW ≠ [] ∧ (1 : ℚ) / 2 ≤ bestDice localKW index) ∧
    ((bestMatch localKW index).2 = true →
      ∃ e ∈ index, e.Keywords ≠ [] ∧ (bestMatch localKW index).1 = e.Thumbnail ∧
        dice localKW e.Keywords = bestDice localKW index) ∧
    (bestMatch ["yogur", "natural"] sampleIndex = ("T1", true) ∧
      dice ["yogur", "natural"] ["yogur", "natural"] = 1 ∧
      dice ["yogur", "natural"] ["yogur", "coco"] = 1 / 2) := by
  have hfst : ∀ idx, localKW ≠ [] →
      ((bestMatch localKW idx).2 = true ↔ (1 : ℚ) / 2 ≤ bestDice localKW idx) := by
    intro idx hne
    rw [bestMatch, if_neg hne]
    rw [show (bmFold localKW idx 0 "").1 = bestDice localKW idx by
      rw [bmFold_fst localKW idx 0 "" (le_refl 0),
        max_eq_right (bestDice_nonneg localKW idx)]]
    by_cases hth : minMatchScore ≤ bestDice localKW idx
    · rw [if_pos hth]
      constructor
      · intro _
        simpa [minMatchScore] using hth
      · intro _
        rfl
    · rw [if_neg hth]
      constructor
      · intro hc
        exact absurd hc (by simp)
      · intro hc
        exact absurd (by simpa [minMatchScore] using hc : minMatchScore ≤ bestDice localKW idx) hth
  refine ⟨rfl, ?_, ?_, ?_, ?_⟩
  · by_cases hne : localKW = []
    · subst hne; rfl
    · rw [bestMatch, bestMatch, if_neg hne, if_neg hne, bmFold_filter]
  · by_cases hne : localKW = []
    · subst hne
      simp [bestMatch]
    · rw [hfst index hne]
      simp [hne]
  · intro hfound
    have hne : localKW ≠ [] := by
      intro hc; subst hc; simp [bestMatch] at hfound
    have hbd : (1 : ℚ) / 2 ≤ bestDice localKW index := (hfst index hne).mp hfound
    have hbm : (bmFold localKW index 0 "").1 = bestDice localKW index := by
      rw [bmFold_fst localKW index 0 "" (le_refl 0),
        max_eq_right (bestDice_nonneg localKW index)]
    have hurl : (bestMatch localKW index).1 = (bmFold localKW index 0 "").2 := by
      rw [bestMatch, if_neg hne]
      have hth : minMatchScore ≤ (bmFold localKW index 0 "").1 := by
        rw [hbm]; exact hbd
      rw [if_pos hth]
    rcases bmFold_result localKW index 0 "" with ⟨hs, _⟩ | ⟨e, he, hek, hu, hs⟩
    · exfalso
      rw [hs] at hbm
      rw [← hbm] at hbd
      norm_num at hbd
    · exact ⟨e, he, hek, by rw [hurl, hu], by rw [← hs, hbm]⟩
  · refine ⟨bestMatch_sample, ?_, ?_⟩
    · have h1 : matchedCount ["yogur", "natural"] ["yogur", "natural"] = 2 := rfl
      rw [dice, h1]
      norm_num
    · have h2 : matchedCount ["yogur", "natural"] ["yogur", "coco"] = 1 := rfl
      rw [dice, h2]
      norm_num

/-- Witness for `bestMatch_correct`: at the sample scenario the match flag
is `true` and the returned URL is the thumbnail of a best-scoring entry. -/
theorem bestMatch_correct_witness :
    (bestMatch ["yogur", "natural"] sampleIndex).2 = true ∧
    ∃ e ∈ sampleIndex, e.Keywords ≠ [] ∧
      (bestMatch ["yogur", "natural"] sampleIndex).1 = e.Thumbnail ∧
      dice ["yogur", "natural"] e.Keywords = bestDice ["yogur", "natural"] sampleIndex := by
  have h := bestMatch_correct ["yogur", "natural"] sampleIndex
  have hf : (bestMatch ["yogur", "natural"] sampleIndex).2 = true := by
    rw [h.2.2.2.2.1]
  exact ⟨hf, h.2.2.2.1 hf⟩


/-! ## Scheduler: supporting lemmas -/

theorem enrStep_pending_le {s : EnricherState} (h : s.pending ≤ 1) (ev : EnrEvent) :
    (enrStep s ev).pending ≤ 1 := by
  cases ev with
  | schedule =>
    show (schedule s).pending ≤ 1
    rw [schedule]
    by_cases hp : s.pending < chanCapacity
    · rw [if_pos hp]
      exact hp
    · rw [if_neg hp]
      exact h
  | receive =>
    show (workerReceive s).pending ≤ 1
    rw [workerReceive]
    by_cases hp : 0 < s.pending
    · rw [if_pos hp]
      exact le_trans (Nat.sub_le _ _) h
    · rw [if_neg hp]
      exact h

theorem enrRun_pending_le : ∀ (evs : List EnrEvent) (s : EnricherState),
    s.pending ≤ 1 → (enrRun s evs).pending ≤ 1 := by
  intro evs
  induction evs with
  | nil => intro s h; exact h
  | cons ev evs ih =>
    intro s h
    exact ih _ (enrStep_pending_le h ev)

theorem enrRun_schedule_fixed : ∀ (n : Nat) (s : EnricherState), s.pending = 1 →
    enrRun s (List.replicate n EnrEvent.schedule) = s := by
  intro n
  induction n with
  | zero => intro s _; rfl
  | succ m ih =>
    intro s h
    show enrRun (enrStep s .schedule) (List.replicate m .schedule) = s
    have hs : enrStep s .schedule = s := by
      show schedule s = s
      rw [schedule, if_neg (by simp [h, chanCapacity])]
    rw [hs]
    exact ih s h

/-- C7: with the capacity-1 signal channel modelled as a pending counter,
`Schedule` is a non-blocking enqueue: from any state with at most one
pending signal, every event interleaving keeps at most one signal
pending; a `Schedule` call while a signal is already queued is a no-op;
and a burst of `n ≥ 1` `Schedule` calls with no intervening worker
receive leaves exactly one pending signal (none was consumed, so no more
than one additional run beyond the one currently executing can follow). -/
theorem schedule_coalescing (s : EnricherState) (evs : List EnrEvent)
    (h : s.pending ≤ 1) :
    ((enrRun s evs).pending ≤ 1) ∧
    (s.pending = 1 → schedule s = s) ∧
    (∀ n, enrRun s (List.replicate n EnrEvent.schedule) =
      if s.pending = 0 ∧ 1 ≤ n then { s with pending := 1 } else s) := by
  refine ⟨enrRun_pending_le evs s h, ?_, ?_⟩
  · intro h1
    rw [schedule, if_neg (by simp [h1, chanCapacity])]
  · intro n
    rcases Nat.le_one_iff_eq_zero_or_eq_one.mp h with h0 | h1
    · cases n with
      | zero =>
        rw [if_neg (by simp)]
        rfl
      | succ m =>
        have hstep : enrStep s .schedule = { s with pending := 1 } := by
          show schedule s = _
          rw [schedule, if_pos (by simp [h0, chanCapacity]), h0]
        show enrRun (enrStep s .schedule) (List.replicate m .schedule) = _
        rw [hstep, enrRun_schedule_fixed m _ rfl,
          if_pos ⟨h0, Nat.succ_le_succ (Nat.zero_le m)⟩]
    · rw [enrRun_schedule_fixed n s h1, if_neg (by simp [h1])]

/-- Witness for `schedule_coalescing`: three near-simultaneous `Schedule`
calls from the idle state leave exactly one pending signal. -/
theorem schedule_coalescing_witness :
    ((⟨0, 0⟩ : EnricherState).pending ≤ 1) ∧
    enrRun ⟨0, 0⟩ (List.replicate 3 EnrEvent.schedule) = ⟨1, 0⟩ := by
  have h := schedule_coalescing ⟨0, 0⟩ [] (by decide)
  refine ⟨by decide, ?_⟩
  rw [h.2.2 3, if_pos (by decide)]

/-! ## Enricher run loop (C10) -/

/-- C10: inside one enrichment pass, an error from
`UpdateProductImageURL` is pass-fatal: the loop stops at once, returning
the counters accumulated so far together with the wrapped error, and no
product after the failing one is matched or updated (the result is
independent of the remaining product list).  By contrast, an empty
keyword set or a match miss merely increments `Skipped` and the loop
continues, and a successful update continues the loop after recording
it. -/
theorem runLoop_update_error_fatal (index : ProductIndex)
    (upd : String → Option String) (p : LocalProduct) (rest : List LocalProduct)
    (res : EnrichResult) :
    (∀ e, keywords (translateCatalan (normalise p.Name)) ≠ [] →
      (bestMatch (keywords (translateCatalan (normalise p.Name))) index).2 = true →
      upd p.ID = some e →
      runLoop index upd (p :: rest) res =
        (res, some ("update image for " ++ p.ID ++ ": " ++ e),
          [(p.ID, (bestMatch (keywords (translateCatalan (normalise p.Name))) index).1)])) ∧
    (keywords (translateCatalan (normalise p.Name)) = [] →
      runLoop index upd (p :: rest) res =
        runLoop index upd rest { res with Skipped := res.Skipped + 1 }) ∧
    (keywords (translateCatalan (normalise p.Name)) ≠ [] →
      (bestMatch (keywords (translateCatalan (normalise p.Name))) index).2 = false →
      runLoop index upd (p :: rest) res =
        runLoop index upd rest { res with Skipped := res.Skipped + 1 }) ∧
    (keywords (translateCatalan (normalise p.Name)) ≠ [] →
      (bestMatch (keywords (translateCatalan (normalise p.Name))) index).2 = true →
      upd p.ID = none →
      runLoop index upd (p :: rest) res =
        ((runLoop index upd rest { res with Updated := res.Updated + 1 }).1,
         (runLoop index upd rest { res with Updated := res.Updated + 1 }).2.1,
         (p.ID, (bestMatch (keywords (translateCatalan (normalise p.Name))) index).1) ::
           (runLoop index upd rest { res with Updated := res.Updated + 1 }).2.2)) := by
  refine ⟨?_, ?_, ?_, ?_⟩
  · intro e hkw hbm hupd
    rw [runLoop, if_neg hkw, if_pos hbm, hupd]
  · intro hkw
    rw [runLoop, if_pos hkw]
  · intro hkw hbm
    rw [runLoop, if_neg hkw, if_neg (by simp [hbm])]
  · intro hkw hbm hupd
    rw [runLoop, if_neg hkw, if_pos hbm, hupd]

set_option maxRecDepth 100000 in
/-- Witness for `runLoop_update_error_fatal`: a failing image update on
the first product returns the starting counters, the wrapped error and a
single attempted update — the second product is never touched. -/
theorem runLoop_update_error_fatal_witness :
    keywords (translateCatalan (normalise "IOGURT NATURAL")) ≠ [] ∧
    (bestMatch (keywords (translateCatalan (normalise "IOGURT NATURAL"))) sampleIndex).2 = true ∧
    runLoop sampleIndex (fun _ => some "db closed")
        [⟨"p1", "IOGURT NATURAL"⟩, ⟨"p2", "IOGURT NATURAL"⟩] ⟨2, 0, 0⟩ =
      (⟨2, 0, 0⟩, some "update image for p1: db closed", [("p1", "T1")]) := by
  have hkw : keywords (translateCatalan (normalise "IOGURT NATURAL")) = ["yogur", "natural"] := rfl
  have hbm := bestMatch_sample
  have h := runLoop_update_error_fatal sampleIndex (fun _ => some "db closed")
    ⟨"p1", "IOGURT NATURAL"⟩ [⟨"p2", "IOGURT NATURAL"⟩] ⟨2, 0, 0⟩
  have hk1 : keywords (translateCatalan (normalise "IOGURT NATURAL")) ≠ [] := by
    rw [hkw]
    simp
  have hk2 : (bestMatch (keywords (translateCatalan (normalise "IOGURT NATURAL")))
      sampleIndex).2 = true := by
    rw [hkw, hbm]
  have hstep : runLoop sampleIndex (fun _ => some "db closed")
      [⟨"p1", "IOGURT NATURAL"⟩, ⟨"p2", "IOGURT NATURAL"⟩] ⟨2, 0, 0⟩ =
      (⟨2, 0, 0⟩, some ("update image for " ++ "p1" ++ ": " ++ "db closed"),
        [("p1", (bestMatch (keywords (translateCatalan (normalise "IOGURT NATURAL")))
          sampleIndex).1)]) := h.1 "db closed" hk1 hk2 rfl
  refine ⟨hk1, hk2, ?_⟩
  rw [hstep, hkw, hbm]
  rfl


/-! ## Parser: footer behaviour (C8) -/

/-- C8: in both body layouts, a line matching the `TOTAL (€)` footer
marker halts all further line processing — the parse result is the same
whatever lines follow the footer line. -/
theorem footer_halts (pre : List String) (f : String) (post : List String)
    (hf : containsFooter (trimSpace f).data = true) :
    (∀ acc out, mlGo (pre ++ f :: post) acc out = mlGo (pre ++ [f]) acc out) ∧
    (∀ inBody pw out, slGo (pre ++ f :: post) inBody pw out = slGo (pre ++ [f]) inBody pw out) := by
  induction pre with
  | nil =>
    refine ⟨fun acc out => ?_, fun inBody pw out => ?_⟩
    · show mlGo (f :: post) acc out = mlGo [f] acc out
      rw [mlGo, mlGo, if_pos hf, if_pos hf]
    · show slGo (f :: post) inBody pw out = slGo [f] inBody pw out
      rw [slGo, slGo, if_pos hf, if_pos hf]
  | cons l pre ih =>
    refine ⟨fun acc out => ?_, fun inBody pw out => ?_⟩
    · show mlGo (l :: (pre ++ f :: post)) acc out = mlGo (l :: (pre ++ [f])) acc out
      rw [mlGo, mlGo]
      by_cases hl : containsFooter (trimSpace l).data
      · rw [if_pos hl, if_pos hl]
      · rw [if_neg hl, if_neg hl]
        exact ih.1 _ _
    · show slGo (l :: (pre ++ f :: post)) inBody pw out = slGo (l :: (pre ++ [f])) inBody pw out
      rw [slGo, slGo]
      by_cases hl : containsFooter (trimSpace l).data
      · rw [if_pos hl, if_pos hl]
      · rw [if_neg hl, if_neg hl]
        exact ih.2 _ _ _

/-- Witness for `footer_halts`: a product-looking line after the footer
contributes nothing. -/
theorem footer_halts_witness :
    containsFooter (trimSpace " TOTAL (€)  12,34").data = true ∧
    mlGo (["Descripció"] ++ " TOTAL (€)  12,34" :: ["1", "EVIL", "9,99"]) initMLAcc [] =
      mlGo (["Descripció"] ++ [" TOTAL (€)  12,34"]) initMLAcc [] := by
  have hf : containsFooter (trimSpace " TOTAL (€)  12,34").data = true := by decide
  exact ⟨hf, (footer_halts ["Descripció"] " TOTAL (€)  12,34" ["1", "EVIL", "9,99"] hf).1
    initMLAcc []⟩

/-! ## Parser: state-machine recovery (C4) -/

/-- C4 counterexample: the claim "every body line failing to match the
expected token resets the state machine to `sQty`" is false — in state
`sWeightPPK` a line matching nothing leaves the parser in `sWeightPPK`. -/
theorem mlStep_reset_counterexample :
    ¬ (∀ (acc : MLAcc) (t : String), acc.state ≠ MLState.sIdle → t ≠ "" →
        mlLineFails acc.state t → (mlStep acc t).1.state = MLState.sQty) := by
  intro h
  have hc := h ⟨MLState.sWeightPPK, "POMA", 1⟩ "FOO" (by decide) (by decide)
    (show matchPricePerKg "FOO".data = none by decide)
  exact absurd hc (by decide)

/-- C4 (amended): a body line failing to match the expected token resets
to `sQty` in states `sQty` (trivially), `sNameLine` and `sPrice`, and
`sTotal` always returns to `sQty`; but in `sWeightPPK` a non-matching
line leaves the parser state unchanged, still waiting for the €/kg line.
In every case nothing is emitted and parsing continues — the ticket is
never aborted. -/
theorem mlStep_recovery (acc : MLAcc) (t : String)
    (hidle : acc.state ≠ MLState.sIdle) (hne : t ≠ "") :
    (acc.state = MLState.sQty → matchQty t.data = none →
      (mlStep acc t).1 = acc ∧ (mlStep acc t).2 = []) ∧
    (acc.state = MLState.sNameLine → ¬(t = "P. Unit" ∨ t = "Import") →
      ((matchPrice t.data).isSome ∨ (matchQty t.data).isSome) →
      (mlStep acc t).1.state = MLState.sQty ∧ (mlStep acc t).2 = []) ∧
    (acc.state = MLState.sPrice → ¬matchWeightKg t.data → matchPrice t.data = none →
      (mlStep acc t).1.state = MLState.sQty ∧ (mlStep acc t).2 = []) ∧
    (acc.state = MLState.sWeightPPK → matchPricePerKg t.data = none →
      (mlStep acc t).1 = acc ∧ (mlStep acc t).2 = []) ∧
    (acc.state = MLState.sTotal →
      (mlStep acc t).1.state = MLState.sQty ∧ (mlStep acc t).2 = []) := by
  obtain ⟨st, pn, pq⟩ := acc
  refine ⟨?_, ?_, ?_, ?_, ?_⟩
  · intro hst hq
    change st = MLState.sQty at hst
    subst hst
    simp [mlStep, hne, hq]
  · intro hst hres hpq
    change st = MLState.sNameLine at hst
    subst hst
    rcases hpq with hp | hq
    · simp [mlStep, hne, hres, hp]
    · simp [mlStep, hne, hres, hq]
  · intro hst hw hp
    change st = MLState.sPrice at hst
    subst hst
    simp [mlStep, hne, hw, hp]
  · intro hst hk
    change st = MLState.sWeightPPK at hst
    subst hst
    simp [mlStep, hne, hk]
  · intro hst
    change st = MLState.sTotal at hst
    subst hst
    simp [mlStep, hne]

/-- Witness for `mlStep_recovery`: a garbage line in `sPrice` resets to
`sQty` emitting nothing, while the same line in `sWeightPPK` leaves the
state unchanged. -/
theorem mlStep_recovery_witness :
    ((⟨MLState.sPrice, "N", 2⟩ : MLAcc).state ≠ MLState.sIdle) ∧
    ¬matchWeightKg "xyz".data ∧ matchPrice "xyz".data = none ∧
    (mlStep ⟨MLState.sPrice, "N", 2⟩ "xyz").1.state = MLState.sQty ∧
    (mlStep ⟨MLState.sPrice, "N", 2⟩ "xyz").2 = [] ∧
    (mlStep ⟨MLState.sWeightPPK, "N", 2⟩ "xyz").1 = ⟨MLState.sWeightPPK, "N", 2⟩ := by
  have h1 := (mlStep_recovery ⟨MLState.sPrice, "N", 2⟩ "xyz" (by decide) (by decide)).2.2.1
    rfl (by decide) (by decide)
  have h2 := (mlStep_recovery ⟨MLState.sWeightPPK, "N", 2⟩ "xyz" (by decide) (by decide)).2.2.2.1
    rfl (by decide)
  exact ⟨by decide, by decide, by decide, h1.1, h1.2, h2.1⟩


/-! ## Parser: line items (C6, C2) -/

theorem matchQty_nonempty {t : String} {q : Nat} (h : matchQty t.data = some q) :
    t ≠ "" := by
  intro hc
  subst hc
  simp [matchQty] at h

theorem matchPrice_nonempty {t : String} {p : Nat} (h : matchPrice t.data = some p) :
    t ≠ "" := by
  intro hc
  subst hc
  simp [matchPrice] at h

theorem matchWeightKg_nonempty {t : String} (h : matchWeightKg t.data = true) :
    t ≠ "" := by
  intro hc
  subst hc
  simp [matchWeightKg] at h

theorem matchPricePerKg_nonempty {t : String} {p : Nat}
    (h : matchPricePerKg t.data = some p) : t ≠ "" := by
  intro hc
  subst hc
  simp [matchPricePerKg] at h

theorem matchWeightLineSingle_nonempty {t : String} {r : String × Nat × Nat}
    (h : matchWeightLineSingle t.data = some r) : t ≠ "" := by
  intro hc
  subst hc
  simp [matchWeightLineSingle] at h

/-- C6: a quantity>1 unit item carrying both a unit-price column and a
trailing line-total column yields exactly one `TicketLine` whose
`UnitPrice` is the unit-price column (never the line total) and whose
`Quantity` is the parsed quantity — in the multi-line layout (where the
line-total line is consumed in `sTotal` and discarded) and in the
single-line layout (`reUnitMulti`, whose third capture is the unit
price). -/
theorem qty_gt1_unit_price (l1 l2 l3 l4 : String) (rest : List String)
    (q upc totc : Nat) (acc : MLAcc) (out : List TicketLine)
    (hst : acc.state = MLState.sQty)
    (hq : matchQty (trimSpace l1).data = some q) (hq1 : q ≠ 1)
    (hnf1 : containsFooter (trimSpace l1).data = false)
    (hnf2 : containsFooter (trimSpace l2).data = false)
    (hnf3 : containsFooter (trimSpace l3).data = false)
    (hnf4 : containsFooter (trimSpace l4).data = false)
    (hne2 : trimSpace l2 ≠ "")
    (hres2 : ¬(trimSpace l2 = "P. Unit" ∨ trimSpace l2 = "Import"))
    (hnp2 : matchPrice (trimSpace l2).data = none)
    (hnq2 : matchQty (trimSpace l2).data = none)
    (hnw3 : ¬matchWeightKg (trimSpace l3).data)
    (hp3 : matchPrice (trimSpace l3).data = some upc)
    (hne4 : trimSpace l4 ≠ "") :
    (mlGo (l1 :: l2 :: l3 :: l4 :: rest) acc out =
      mlGo rest ⟨MLState.sQty, trimSpace l2, q⟩ (out ++ [⟨trimSpace l2, upc, q⟩])) ∧
    (∀ (t name : String) (outs : List TicketLine),
      containsFooter (trimSpace t).data = false →
      containsColHeader (trimSpace t).data = false →
      trimSpace t ≠ "" →
      matchUnitMulti (trimSpace t).data = some (q, name, upc, totc) →
      slGo (t :: rest) true "" outs = slGo rest true "" (outs ++ [⟨trimSpace name, upc, q⟩])) := by
  obtain ⟨st, pn, pq⟩ := acc
  change st = MLState.sQty at hst
  subst hst
  have hne1 : trimSpace l1 ≠ "" := matchQty_nonempty hq
  have hne3 : trimSpace l3 ≠ "" := matchPrice_nonempty hp3
  have s1 : mlStep ⟨MLState.sQty, pn, pq⟩ (trimSpace l1) = (⟨MLState.sNameLine, pn, q⟩, []) := by
    simp [mlStep, hne1, hq]
  have s2 : mlStep ⟨MLState.sNameLine, pn, q⟩ (trimSpace l2) =
      (⟨MLState.sPrice, trimSpace l2, q⟩, []) := by
    simp [mlStep, hne2, hres2, hnp2, hnq2]
  have s3 : mlStep ⟨MLState.sPrice, trimSpace l2, q⟩ (trimSpace l3) =
      (⟨MLState.sTotal, trimSpace l2, q⟩, [⟨trimSpace l2, upc, q⟩]) := by
    simp [mlStep, hne3, hnw3, hp3, hq1]
  have s4 : mlStep ⟨MLState.sTotal, trimSpace l2, q⟩ (trimSpace l4) =
      (⟨MLState.sQty, trimSpace l2, q⟩, []) := by
    simp [mlStep, hne4]
  constructor
  · have e1 : mlGo (l1 :: l2 :: l3 :: l4 :: rest) ⟨MLState.sQty, pn, pq⟩ out =
        mlGo (l2 :: l3 :: l4 :: rest) ⟨MLState.sNameLine, pn, q⟩ out := by
      rw [mlGo, if_neg (by simp [hnf1]), s1]
      simp
    have e2 : mlGo (l2 :: l3 :: l4 :: rest) ⟨MLState.sNameLine, pn, q⟩ out =
        mlGo (l3 :: l4 :: rest) ⟨MLState.sPrice, trimSpace l2, q⟩ out := by
      rw [mlGo, if_neg (by simp [hnf2]), s2]
      simp
    have e3 : mlGo (l3 :: l4 :: rest) ⟨MLState.sPrice, trimSpace l2, q⟩ out =
        mlGo (l4 :: rest) ⟨MLState.sTotal, trimSpace l2, q⟩ (out ++ [⟨trimSpace l2, upc, q⟩]) := by
      rw [mlGo, if_neg (by simp [hnf3]), s3]
    have e4 : mlGo (l4 :: rest) ⟨MLState.sTotal, trimSpace l2, q⟩ (out ++ [⟨trimSpace l2, upc, q⟩]) =
        mlGo rest ⟨MLState.sQty, trimSpace l2, q⟩ (out ++ [⟨trimSpace l2, upc, q⟩]) := by
      rw [mlGo, if_neg (by simp [hnf4]), s4]
      simp
    rw [e1, e2, e3, e4]
  · intro t name outs hft hcol hnet hum
    have sl : slLine (trimSpace t) = ("", [⟨trimSpace name, upc, q⟩]) := by
      simp [slLine, hum]
    have ss : slStep true "" (trimSpace t) = ((true, ""), [⟨trimSpace name, upc, q⟩]) := by
      simp [slStep, hcol, hnet, sl]
    rw [slGo, if_neg (by simp [hft]), ss]

/-- Witness for `qty_gt1_unit_price`: `3 / HUEVOS M / 0,45 / 1,35` in the
multi-line layout and `"3   HUEVOS M   0,45   1,35"` in the single-line
layout both emit one line with quantity 3 and unit price 45 cents, not
the 135-cent total. -/
theorem qty_gt1_unit_price_witness :
    matchQty (trimSpace "3").data = some 3 ∧
    matchPrice (trimSpace "0,45").data = some 45 ∧
    matchUnitMulti (trimSpace "3   HUEVOS M   0,45   1,35").data =
      some (3, "HUEVOS M", 45, 135) ∧
    (mlGo ["3", "HUEVOS M", "0,45", "1,35"] ⟨MLState.sQty, "", 0⟩ [] =
      mlGo [] ⟨MLState.sQty, trimSpace "HUEVOS M", 3⟩ ([] ++ [⟨trimSpace "HUEVOS M", 45, 3⟩])) ∧
    (slGo ["3   HUEVOS M   0,45   1,35"] true "" [] =
      slGo [] true "" ([] ++ [⟨trimSpace "HUEVOS M", 45, 3⟩])) := by
  have h := qty_gt1_unit_price "3" "HUEVOS M" "0,45" "1,35" [] 3 45 135
    ⟨MLState.sQty, "", 0⟩ [] rfl (by decide) (by decide) (by decide) (by decide)
    (by decide) (by decide) (by decide) (by decide) (by decide) (by decide)
    (by decide) (by decide) (by decide)
  exact ⟨by decide, by decide, by decide, h.1,
    h.2 "3   HUEVOS M   0,45   1,35" "HUEVOS M" [] (by decide) (by decide)
      (by decide) (by decide)⟩


/-- C2 counterexample: in the multi-line layout the weight path emits
`pendingQty`, not a hard-coded 1 — a weight item whose quantity line
reads `2` is parsed into a `TicketLine` whose `UnitPrice` is the €/kg
value (300 cents) but whose `Quantity` is 2, so not every weight-priced
`TicketLine` has quantity 1. -/
theorem weight_qty2_counterexample :
    Parse "01/02/2026\nDescripció\n2\nNAME\n0,500 kg\n3,00 €/kg\n1,50\nTOTAL (€)" =
      .ok ⟨"Mercadona", ⟨1, 2, 2026⟩, "", [⟨"NAME", 300, 2⟩]⟩ := rfl

/-- C2 (amended): a weight item written with a quantity-1 name line —
qty line `1`, name line, weight line, €/kg line — yields exactly one
`TicketLine` with `Quantity = 1` and `UnitPrice` equal to the €/kg
capture (never the weight, never the line total), in both layouts; in
the multi-line layout the emitted quantity is the parsed quantity-line
integer (1 here), while the single-line layout hard-codes quantity 1 for
every weight continuation. -/
theorem weight_item_unitprice (l1 l2 l3 l4 : String) (rest : List String)
    (ppk : Nat) (acc : MLAcc) (out : List TicketLine)
    (hst : acc.state = MLState.sQty)
    (hq : matchQty (trimSpace l1).data = some 1)
    (hnf1 : containsFooter (trimSpace l1).data = false)
    (hnf2 : containsFooter (trimSpace l2).data = false)
    (hnf3 : containsFooter (trimSpace l3).data = false)
    (hnf4 : containsFooter (trimSpace l4).data = false)
    (hne2 : trimSpace l2 ≠ "")
    (hres2 : ¬(trimSpace l2 = "P. Unit" ∨ trimSpace l2 = "Import"))
    (hnp2 : matchPrice (trimSpace l2).data = none)
    (hnq2 : matchQty (trimSpace l2).data = none)
    (hw3 : matchWeightKg (trimSpace l3).data = true)
    (hp4 : matchPricePerKg (trimSpace l4).data = some ppk) :
    (mlGo (l1 :: l2 :: l3 :: l4 :: rest) acc out =
      mlGo rest ⟨MLState.sTotal, trimSpace l2, 1⟩ (out ++ [⟨trimSpace l2, ppk, 1⟩])) ∧
    (∀ (w t wraw : String) (ppk2 totc : Nat) (outs : List TicketLine),
      w ≠ "" →
      containsFooter (trimSpace t).data = false →
      containsColHeader (trimSpace t).data = false →
      matchWeightLineSingle (trimSpace t).data = some (wraw, ppk2, totc) →
      slGo (t :: rest) true w outs = slGo rest true "" (outs ++ [⟨w, ppk2, 1⟩])) := by
  obtain ⟨st, pn, pq⟩ := acc
  change st = MLState.sQty at hst
  subst hst
  have hne1 : trimSpace l1 ≠ "" := matchQty_nonempty hq
  have hne3 : trimSpace l3 ≠ "" := matchWeightKg_nonempty hw3
  have hne4 : trimSpace l4 ≠ "" := matchPricePerKg_nonempty hp4
  have s1 : mlStep ⟨MLState.sQty, pn, pq⟩ (trimSpace l1) = (⟨MLState.sNameLine, pn, 1⟩, []) := by
    simp [mlStep, hne1, hq]
  have s2 : mlStep ⟨MLState.sNameLine, pn, 1⟩ (trimSpace l2) =
      (⟨MLState.sPrice, trimSpace l2, 1⟩, []) := by
    simp [mlStep, hne2, hres2, hnp2, hnq2]
  have s3 : mlStep ⟨MLState.sPrice, trimSpace l2, 1⟩ (trimSpace l3) =
      (⟨MLState.sWeightPPK, trimSpace l2, 1⟩, []) := by
    simp [mlStep, hne3, hw3]
  have s4 : mlStep ⟨MLState.sWeightPPK, trimSpace l2, 1⟩ (trimSpace l4) =
      (⟨MLState.sTotal, trimSpace l2, 1⟩, [⟨trimSpace l2, ppk, 1⟩]) := by
    simp [mlStep, hne4, hp4]
  constructor
  · have e1 : mlGo (l1 :: l2 :: l3 :: l4 :: rest) ⟨MLState.sQty, pn, pq⟩ out =
        mlGo (l2 :: l3 :: l4 :: rest) ⟨MLState.sNameLine, pn, 1⟩ out := by
      rw [mlGo, if_neg (by simp [hnf1]), s1]
      simp
    have e2 : mlGo (l2 :: l3 :: l4 :: rest) ⟨MLState.sNameLine, pn, 1⟩ out =
        mlGo (l3 :: l4 :: rest) ⟨MLState.sPrice, trimSpace l2, 1⟩ out := by
      rw [mlGo, if_neg (by simp [hnf2]), s2]
      simp
    have e3 : mlGo (l3 :: l4 :: rest) ⟨MLState.sPrice, trimSpace l2, 1⟩ out =
        mlGo (l4 :: rest) ⟨MLState.sWeightPPK, trimSpace l2, 1⟩ out := by
      rw [mlGo, if_neg (by simp [hnf3]), s3]
      simp
    have e4 : mlGo (l4 :: rest) ⟨MLState.sWeightPPK, trimSpace l2, 1⟩ out =
        mlGo rest ⟨MLState.sTotal, trimSpace l2, 1⟩ (out ++ [⟨trimSpace l2, ppk, 1⟩]) := by
      rw [mlGo, if_neg (by simp [hnf4]), s4]
    rw [e1, e2, e3, e4]
  · intro w t wraw ppk2 totc outs hw hft hcol hm
    have hnet : trimSpace t ≠ "" := matchWeightLineSingle_nonempty hm
    have ss : slStep true w (trimSpace t) = ((true, ""), [⟨w, ppk2, 1⟩]) := by
      simp [slStep, hcol, hnet, hw, hm]
    rw [slGo, if_neg (by simp [hft]), ss]

/-- Witness for `weight_item_unitprice`: `1 / POMA / 0,354 kg /
2,45 €/kg` in the multi-line layout and pending product `PLATANO` with
continuation `"0,354 kg   6,99 €/kg   2,47"` in the single-line layout
both emit quantity 1 with the €/kg price (245 resp. 699 cents — not the
weight and not the 247-cent total). -/
theorem weight_item_unitprice_witness :
    matchPricePerKg (trimSpace "2,45 €/kg").data = some 245 ∧
    matchWeightLineSingle (trimSpace "0,354 kg   6,99 €/kg   2,47").data =
      some ("0,354", 699, 247) ∧
    (mlGo ["1", "POMA", "0,354 kg", "2,45 €/kg"] ⟨MLState.sQty, "", 0⟩ [] =
      mlGo [] ⟨MLState.sTotal, trimSpace "POMA", 1⟩ ([] ++ [⟨trimSpace "POMA", 245, 1⟩])) ∧
    (slGo ["0,354 kg   6,99 €/kg   2,47"] true "PLATANO" [] =
      slGo [] true "" ([] ++ [⟨"PLATANO", 699, 1⟩])) := by
  have h := weight_item_unitprice "1" "POMA" "0,354 kg" "2,45 €/kg" [] 245
    ⟨MLState.sQty, "", 0⟩ [] rfl (by decide) (by decide) (by decide) (by decide)
    (by decide) (by decide) (by decide) (by decide) (by decide) (by decide)
    (by decide)
  exact ⟨by decide, by decide, h.1,
    h.2 "PLATANO" "0,354 kg   6,99 €/kg   2,47" "0,354" 699 247 [] (by decide)
      (by decide) (by decide) (by decide)⟩


/-! ## Parser: header scan (C5) -/

theorem scanHeader_fst_zero : ∀ (lines : List String) (d0 : GoDate) (inv0 : String),
    ((scanHeader lines d0 inv0).1 = zeroDate ↔
      (d0 = zeroDate ∧ ∀ l ∈ lines, lineDate l = none ∨ lineDate l = some zeroDate)) := by
  intro lines
  induction lines with
  | nil =>
    intro d0 inv0
    simp [scanHeader]
  | cons l rest ih =>
    intro d0 inv0
    rw [scanHeader]
    by_cases hd0 : d0 = zeroDate
    · subst hd0
      cases hld : lineDate l with
      | none =>
        have hhd : headerDate zeroDate l = zeroDate := by simp [headerDate, hld]
        rw [hhd, if_neg (by simp), ih]
        constructor
        · rintro ⟨-, hall⟩
          refine ⟨rfl, ?_⟩
          intro x hx
          rcases List.mem_cons.mp hx with rfl | hx'
          · exact Or.inl hld
          · exact hall x hx'
        · rintro ⟨-, hall⟩
          exact ⟨rfl, fun x hx => hall x (List.mem_cons_of_mem _ hx)⟩
      | some dd =>
        have hhd : headerDate zeroDate l = dd := by simp [headerDate, hld]
        rw [hhd]
        by_cases hdd : dd = zeroDate
        · subst hdd
          rw [if_neg (by simp), ih]
          constructor
          · rintro ⟨-, hall⟩
            refine ⟨rfl, ?_⟩
            intro x hx
            rcases List.mem_cons.mp hx with rfl | hx'
            · exact Or.inr hld
            · exact hall x hx'
          · rintro ⟨-, hall⟩
            exact ⟨rfl, fun x hx => hall x (List.mem_cons_of_mem _ hx)⟩
        · have hbad : ¬(lineDate l = none ∨ lineDate l = some zeroDate) := by
            rw [hld]
            rintro (h | h)
            · exact absurd h (by simp)
            · exact hdd (Option.some.inj h)
          by_cases hinv : headerInv inv0 l ≠ ""
          · rw [if_pos ⟨hdd, hinv⟩]
            constructor
            · intro hc
              exact absurd hc hdd
            · rintro ⟨-, hall⟩
              exact absurd (hall l (by simp)) hbad
          · rw [if_neg (by tauto), ih]
            constructor
            · rintro ⟨hc, -⟩
              exact absurd hc hdd
            · rintro ⟨-, hall⟩
              exact absurd (hall l (by simp)) hbad
    · have hhd : headerDate d0 l = d0 := by rw [headerDate, if_neg hd0]
      rw [hhd]
      by_cases hinv : headerInv inv0 l ≠ ""
      · rw [if_pos ⟨hd0, hinv⟩]
        constructor
        · intro hc
          exact absurd hc hd0
        · rintro ⟨hc, -⟩
          exact absurd hc hd0
      · rw [if_neg (by tauto), ih]
        constructor
        · rintro ⟨hc, -⟩
          exact absurd hc hd0
        · rintro ⟨hc, -⟩
          exact absurd hc hd0

theorem scanHeader_no_invoice : ∀ (lines : List String) (d0 : GoDate),
    (∀ l ∈ lines, findInvoice l.data = none) → (scanHeader lines d0 "").2 = "" := by
  intro lines
  induction lines with
  | nil => intro d0 _; rfl
  | cons l rest ih =>
    intro d0 h
    rw [scanHeader]
    have hinv : headerInv "" l = "" := by simp [headerInv, h l (by simp)]
    rw [hinv, if_neg (by simp)]
    exact ih _ (fun x hx => h x (List.mem_cons_of_mem _ hx))

theorem scanHeader_done : ∀ (lines : List String) (d0 : GoDate) (inv0 : String),
    d0 ≠ zeroDate → inv0 ≠ "" → scanHeader lines d0 inv0 = (d0, inv0) := by
  intro lines
  cases lines with
  | nil => intro d0 inv0 _ _; rfl
  | cons l rest =>
    intro d0 inv0 hd hinv
    rw [scanHeader]
    have h1 : headerDate d0 l = d0 := by rw [headerDate, if_neg hd]
    have h2 : headerInv inv0 l = inv0 := by rw [headerInv, if_neg hinv]
    rw [h1, h2, if_pos ⟨hd, hinv⟩]

theorem scanHeader_append : ∀ (pre post : List String) (d0 : GoDate) (inv0 : String),
    (scanHeader pre d0 inv0).1 ≠ zeroDate → (scanHeader pre d0 inv0).2 ≠ "" →
    scanHeader (pre ++ post) d0 inv0 = scanHeader pre d0 inv0 := by
  intro pre
  induction pre with
  | nil =>
    intro post d0 inv0 hd hinv
    show scanHeader post d0 inv0 = (d0, inv0)
    exact scanHeader_done post d0 inv0 hd hinv
  | cons l pre ih =>
    intro post d0 inv0 hd hinv
    rw [List.cons_append]
    rw [scanHeader]
    conv_rhs => rw [scanHeader]
    by_cases hc : headerDate d0 l ≠ zeroDate ∧ headerInv inv0 l ≠ ""
    · rw [if_pos hc, if_pos hc]
    · rw [if_neg hc, if_neg hc]
      have hrw : scanHeader (l :: pre) d0 inv0 =
          scanHeader pre (headerDate d0 l) (headerInv inv0 l) := by
        rw [scanHeader, if_neg hc]
      rw [hrw] at hd hinv
      exact ih post _ _ hd hinv

/-- C5 counterexample: the receipt text `01/01/0001` has a line yielding
a valid `DD/MM/YYYY` date, but that date is Go's zero `time.Time`
(`IsZero` stays true), so `Parse` still returns the missing-date hard
error — the claim's "exactly when no line yields a valid date" fails. -/
theorem parse_zero_date_counterexample :
    lineDate "01/01/0001" = some zeroDate ∧
    Parse "01/01/0001" = .error "could not find date in receipt" := ⟨rfl, rfl⟩

/-- C5 (amended): `Parse` returns the hard missing-date error exactly
when every line of the receipt yields either no valid `DD/MM/YYYY` date
or the sentinel date `01/01/0001` (Go's zero `time.Time`,
indistinguishable from an absent date).  When a non-sentinel date is
found, `Parse` succeeds even if the invoice label is absent, with
`InvoiceNumber = ""`.  Header scanning stops once both date and invoice
number are found: later lines cannot change the header. -/
theorem parse_header (text : String) :
    ((Parse text = .error "could not find date in receipt") ↔
      ∀ l ∈ splitLines text, lineDate l = none ∨ lineDate l = some zeroDate) ∧
    ((∃ l ∈ splitLines text, ∃ d, lineDate l = some d ∧ d ≠ zeroDate) →
      (∀ l ∈ splitLines text, findInvoice l.data = none) →
      ∃ t, Parse text = .ok t ∧ t.InvoiceNumber = "") ∧
    (∀ (pre post : List String) (d0 : GoDate) (inv0 : String),
      (scanHeader pre d0 inv0).1 ≠ zeroDate → (scanHeader pre d0 inv0).2 ≠ "" →
      scanHeader (pre ++ post) d0 inv0 = scanHeader pre d0 inv0) := by
  have hiff := scanHeader_fst_zero (splitLines text) zeroDate ""
  refine ⟨?_, ?_, scanHeader_append⟩
  · constructor
    · intro herr
      by_cases hz : (scanHeader (splitLines text) zeroDate "").1 = zeroDate
      · exact (hiff.mp hz).2
      · exfalso
        rw [Parse, if_neg hz] at herr
        by_cases hany : (splitLines text).any (fun l => containsColHeader l.data) <;>
          simp [hany] at herr
    · intro hall
      rw [Parse, if_pos (hiff.mpr ⟨rfl, hall⟩)]
  · intro hex hnoinv
    have hz : (scanHeader (splitLines text) zeroDate "").1 ≠ zeroDate := by
      intro hc
      rcases hex with ⟨l, hl, d, hld, hdz⟩
      rcases (hiff.mp hc).2 l hl with h | h
      · rw [hld] at h
        exact absurd h (by simp)
      · rw [hld] at h
        exact hdz (Option.some.inj h)
    have hinv : (scanHeader (splitLines text) zeroDate "").2 = "" :=
      scanHeader_no_invoice (splitLines text) zeroDate hnoinv
    rw [Parse, if_neg hz]
    by_cases hany : (splitLines text).any (fun l => containsColHeader l.data)
    · rw [if_pos hany]
      exact ⟨_, rfl, hinv⟩
    · rw [if_neg hany]
      exact ⟨_, rfl, hinv⟩

/-- Witness for `parse_header`: a receipt with a date but no invoice
label parses successfully with an empty invoice number. -/
theorem parse_header_witness :
    (∃ l ∈ splitLines "x 09/02/2026\nDescripció", ∃ d, lineDate l = some d ∧ d ≠ zeroDate) ∧
    (∀ l ∈ splitLines "x 09/02/2026\nDescripció", findInvoice l.data = none) ∧
    ∃ t, Parse "x 09/02/2026\nDescripció" = .ok t ∧ t.InvoiceNumber = "" := by
  have h1 : ∃ l ∈ splitLines "x 09/02/2026\nDescripció", ∃ d, lineDate l = some d ∧ d ≠ zeroDate :=
    ⟨"x 09/02/2026", by decide, ⟨9, 2, 2026⟩, by decide, by decide⟩
  have h2 : ∀ l ∈ splitLines "x 09/02/2026\nDescripció", findInvoice l.data = none := by
    decide
  exact ⟨h1, h2, (parse_header "x 09/02/2026\nDescripció").2.1 h1 h2⟩


/-! ## Import orchestrator (C3) -/

/-- C3: `Import` builds exactly one `PriceRecordEntry` per ticket line —
via `mkEntry`, carrying the line's name and unit price plus the ticket's
date and store — and hands the whole batch to persistence in a single
`UpsertPriceRecordBatch` call (the call trace is exactly one batch).  On
extraction or parse failure it returns a wrapped error and persistence is
never called; on persistence failure it returns a wrapped error and no
result; on success `LinesImported` equals the number of ticket lines. -/
theorem Import_atomic (er : Except String String)
    (persist : List PriceRecordEntry → Option String) :
    (∀ e, er = .error e →
      ImportTr er persist = (.error ("extract pdf text: " ++ e), [])) ∧
    (∀ text e, er = .ok text → Parse text = .error e →
      ImportTr er persist = (.error ("parse receipt: " ++ e), [])) ∧
    (∀ text t, er = .ok text → Parse text = .ok t →
      (ImportTr er persist).2 = [t.Lines.map (mkEntry t)] ∧
      (∀ e, persist (t.Lines.map (mkEntry t)) = some e →
        (ImportTr er persist).1 = .error ("persist ticket " ++ t.InvoiceNumber ++ ": " ++ e)) ∧
      (persist (t.Lines.map (mkEntry t)) = none →
        (ImportTr er persist).1 = .ok ⟨t.InvoiceNumber, t.Lines.length⟩)) := by
  refine ⟨?_, ?_, ?_⟩
  · intro e he
    subst he
    rfl
  · intro text e he hp
    subst he
    simp [ImportTr, hp]
  · intro text t he hp
    subst he
    refine ⟨?_, ?_, ?_⟩
    · cases hq : persist (t.Lines.map (mkEntry t)) with
      | some e => simp [ImportTr, hp, hq]
      | none => simp [ImportTr, hp, hq]
    · intro e hq
      simp [ImportTr, hp, hq]
    · intro hq
      simp [ImportTr, hp, hq]

/-- Witness for `Import_atomic`: a one-line receipt is persisted as a
single batch of one entry carrying the line's name and price and the
ticket's date and store, and `LinesImported = 1`. -/
theorem Import_atomic_witness :
    Parse "09/02/2026\nFACTURA SIMPLIFICADA: 4144\nDescripció   P. Unit   Import\n1   LECHE   0,89\nTOTAL (€)" =
      .ok ⟨"Mercadona", ⟨9, 2, 2026⟩, "4144", [⟨"LECHE", 89, 1⟩]⟩ ∧
    ImportTr
      (.ok "09/02/2026\nFACTURA SIMPLIFICADA: 4144\nDescripció   P. Unit   Import\n1   LECHE   0,89\nTOTAL (€)")
      (fun _ => none) =
      (.ok ⟨"4144", 1⟩, [[⟨"LECHE", ⟨⟨9, 2, 2026⟩, 89, "Mercadona"⟩⟩]]) := by
  have hp : Parse "09/02/2026\nFACTURA SIMPLIFICADA: 4144\nDescripció   P. Unit   Import\n1   LECHE   0,89\nTOTAL (€)" =
      .ok ⟨"Mercadona", ⟨9, 2, 2026⟩, "4144", [⟨"LECHE", 89, 1⟩]⟩ := rfl
  have h := (Import_atomic
    (.ok "09/02/2026\nFACTURA SIMPLIFICADA: 4144\nDescripció   P. Unit   Import\n1   LECHE   0,89\nTOTAL (€)")
    (fun _ => none)).2.2 _ _ rfl hp
  refine ⟨hp, Prod.ext ?_ ?_⟩
  · exact h.2.2 rfl
  · exact h.1

end BasketCost
